import Mathlib

/-!
Verification of the socket.io wire-format codec (`src/index.js`).

The development shallowly embeds the encoder (`Encoder._encodePacket`,
`Encoder._tryStringify`, `Encoder.encode`, the `ERROR_PACKET` constant),
the decoder (`Decoder._decodePacket`, `Decoder._tryParse`, `Decoder.add`,
`buildError`) and the module constants (`protocol`, `types`, the packet
type numbers).

JavaScript strings are modelled as `List Char`.  The external JSON
capability (`JSON.stringify` / `yieldable-json`'s `parseAsync`), which the
repository uses but does not contain, is modelled concretely by
`jsonToChars` (serialization) and `parseValue`/`tryParse` (parsing) over a
`Json` value type; numbers are modelled as integers and the asynchronous
completion of encode/decode is modelled by plain function results (the
promise always resolves with the value the embedded function returns).
-/

namespace Sio

/-! ### Characters and decimal digits -/

/-- `charAt` of a JavaScript string: `none` models the empty string `''`
returned for an out-of-range index. -/
def charAt (cs : List Char) (i : Nat) : Option Char := cs[i]?

/-- The ECMAScript whitespace characters (`StrWhiteSpaceChar`): a string of
these coerces to the number `0`, and `Number` ignores them at either end. -/
def isJsWs (c : Char) : Bool :=
  let n := c.toNat
  n = 0x9 || n = 0xa || n = 0xb || n = 0xc || n = 0xd || n = 0x20 ||
  n = 0xa0 || n = 0x1680 || (0x2000 ≤ n && n ≤ 0x200a) ||
  n = 0x2028 || n = 0x2029 || n = 0x202f || n = 0x205f || n = 0x3000 || n = 0xfeff

/-- ECMAScript `ToNumber` of a one-character string: a decimal digit maps to
its value, a whitespace character to `0`, anything else to `NaN` (`none`). -/
def jsCharNumVal (c : Char) : Option Nat :=
  if c.isDigit then some (c.toNat - 48)
  else if isJsWs c then some 0
  else none

/-- A JavaScript number as it occurs in decoded packets: either `NaN` or a
non-negative integer (ids are built from decimal digits, so no other numbers
arise; integers model the exact values). -/
inductive JsNumber where
  | nan
  | nat (n : Nat)
deriving DecidableEq, Repr

/-- Value of a list of decimal digit characters, most significant first. -/
def charsToNat (ds : List Char) : Nat :=
  ds.foldl (fun a c => 10 * a + (c.toNat - 48)) 0

/-- ECMAScript `ToNumber` of a string made of digits and whitespace (the only
strings the decoder converts): surrounding whitespace is trimmed, the empty
remainder is `0`, a pure digit run is its value, anything else is `NaN`.
The value of a digit run is exact here, which agrees with the float64
result of `Number` only below `2 ^ 53` (past `Number.MAX_SAFE_INTEGER` the
engine rounds to the nearest double); the id-value statements therefore
carry that bound, and outside it only the presence of an id is asserted. -/
def jsStrToNumber (cs : List Char) : JsNumber :=
  let t := ((cs.dropWhile isJsWs).reverse.dropWhile isJsWs).reverse
  if t.isEmpty then .nat 0
  else if t.all Char.isDigit then .nat (charsToNat t)
  else .nan

/-- Decimal digits of `n`, most significant first, with a fuel argument so
that the definition is structural (and reduces definitionally); the fuel
`n + 1` used by `natToChars` always suffices. -/
def natToCharsAux : Nat → Nat → List Char → List Char
  | 0, _, acc => acc
  | fuel + 1, n, acc =>
    if n < 10 then Nat.digitChar n :: acc
    else natToCharsAux fuel (n / 10) (Nat.digitChar (n % 10) :: acc)

/-- JavaScript number-to-string conversion for a non-negative integer
(`'' + n`), as the full run of decimal digits.  This agrees with
`Number::toString` only for integers the engine holds exactly and prints
in decimal notation, i.e. below `2 ^ 53` (above `Number.MAX_SAFE_INTEGER`
the double is rounded, and from `1e21` the engine switches to exponential
notation); the round-trip statements restrict ids to that range. -/
def natToChars (n : Nat) : List Char := natToCharsAux (n + 1) n []

/-- JavaScript/JSON textual form of an integer. -/
def intToChars : Int → List Char
  | .ofNat n => natToChars n
  | .negSucc m => '-' :: natToChars (m + 1)

/-! ### The JSON value model

The repository treats JSON as an external capability.  Values are modelled
by a mutual inductive so that serialization, parsing and the proofs about
them can recurse structurally; numbers are restricted to integers (the
claims under verification only involve integer numerics). -/

mutual
inductive Json where
  | null
  | bool (b : Bool)
  | num (n : Int)
  | str (s : List Char)
  | arr (xs : JsonList)
  | obj (fs : JsonFields)

inductive JsonList where
  | nil
  | cons (v : Json) (vs : JsonList)

inductive JsonFields where
  | nil
  | cons (k : List Char) (v : Json) (fs : JsonFields)
end

/-- Is the value an array?  (The `isarray` dependency used for payload
shape validation.) -/
def jsonIsArr : Json → Bool
  | .arr _ => true
  | _ => false

/-- Is the value the JSON literal `false`?  (The sentinel comparison
`payload !== false` in `Decoder._decodePacket`.) -/
def jsonIsFalse : Json → Bool
  | .bool false => true
  | _ => false

/-- JSON escape of one character inside a string literal, as produced by
`JSON.stringify`: the named short escapes, `\u00XX` for the remaining
control characters, and the character itself otherwise. -/
def escChar (c : Char) : List Char :=
  if c = '"' then ['\\', '"']
  else if c = '\\' then ['\\', '\\']
  else if c = '\x08' then ['\\', 'b']
  else if c = '\x0c' then ['\\', 'f']
  else if c = '\n' then ['\\', 'n']
  else if c = '\r' then ['\\', 'r']
  else if c = '\t' then ['\\', 't']
  else if c.toNat < 0x20 then
    ['\\', 'u', '0', '0', Nat.digitChar (c.toNat / 16), Nat.digitChar (c.toNat % 16)]
  else [c]

/-- A JSON string literal: quote and escape. -/
def quoteChars (s : List Char) : List Char :=
  '"' :: (s.flatMap escChar ++ ['"'])

mutual
/-- `JSON.stringify` of a value (no added whitespace). -/
def jsonToChars : Json → List Char
  | .null => "null".data
  | .bool true => "true".data
  | .bool false => "false".data
  | .num n => intToChars n
  | .str s => quoteChars s
  | .arr xs => '[' :: (jsonListToChars xs ++ [']'])
  | .obj fs => '{' :: (jsonFieldsToChars fs ++ ['}'])

/-- Comma-separated serialization of array elements. -/
def jsonListToChars : JsonList → List Char
  | .nil => []
  | .cons v .nil => jsonToChars v
  | .cons v vs => jsonToChars v ++ ',' :: jsonListToChars vs

/-- Comma-separated serialization of object members. -/
def jsonFieldsToChars : JsonFields → List Char
  | .nil => []
  | .cons k v .nil => quoteChars k ++ ':' :: jsonToChars v
  | .cons k v fs => quoteChars k ++ ':' :: jsonToChars v ++ ',' :: jsonFieldsToChars fs
end

/-! ### The JSON parser

A model of the external JSON text parser (`yieldable-json` resolves with
the parsed value, or with an error on malformed text).  Recursion is by
fuel so that every function is structural and reduces definitionally;
`tryParse` supplies fuel `length + 1`, which is shown sufficient for every
serialized value. -/

/-- JSON insignificant whitespace (RFC 8259: space, tab, LF, CR). -/
def isJsonWs (c : Char) : Bool :=
  c = ' ' || c = '\t' || c = '\n' || c = '\r'

/-- Skip insignificant whitespace. -/
def skipWs : List Char → List Char
  | [] => []
  | c :: rest => if isJsonWs c then skipWs rest else c :: rest

/-- Consume an expected literal, returning the remainder. -/
def dropLit : List Char → List Char → Option (List Char)
  | [], rest => some rest
  | l :: ls, c :: rest => if c = l then dropLit ls rest else none
  | _ :: _, [] => none

/-- Value of a hexadecimal digit character. -/
def hexVal (c : Char) : Option Nat :=
  if '0' ≤ c ∧ c ≤ '9' then some (c.toNat - 48)
  else if 'a' ≤ c ∧ c ≤ 'f' then some (c.toNat - 87)
  else if 'A' ≤ c ∧ c ≤ 'F' then some (c.toNat - 55)
  else none

/-- The character denoted by a named (single-letter) JSON escape. -/
def escDecode (e : Char) : Option Char :=
  if e = '"' then some '"'
  else if e = '\\' then some '\\'
  else if e = '/' then some '/'
  else if e = 'b' then some '\x08'
  else if e = 'f' then some '\x0c'
  else if e = 'n' then some '\n'
  else if e = 'r' then some '\r'
  else if e = 't' then some '\t'
  else none

/-- Decode a `\uXXXX` escape tail: four hexadecimal digits after the `u`. -/
def uHex : List Char → Option (Char × List Char)
  | h1 :: h2 :: h3 :: h4 :: rest =>
    match hexVal h1, hexVal h2, hexVal h3, hexVal h4 with
    | some a, some b, some c, some d =>
      some (Char.ofNat (((a * 16 + b) * 16 + c) * 16 + d), rest)
    | _, _, _, _ => none
  | _ => none

/-- Decode one escape sequence (the characters after a `\`), returning the
denoted character and the remainder. -/
def unescape : List Char → Option (Char × List Char)
  | [] => none
  | e :: rest =>
    match escDecode e with
    | some d => some (d, rest)
    | none => if e = 'u' then uHex rest else none

/-- Parse the body of a JSON string literal (the opening quote already
consumed) up to the closing quote; raw control characters are rejected.
The fuel makes the recursion structural; each step consumes at least one
character, so the callers' fuel `length + 1` always suffices. -/
def parseStringBody : Nat → List Char → Option (List Char × List Char)
  | 0, _ => none
  | _ + 1, [] => none
  | fuel + 1, c :: rest =>
    if c = '"' then some ([], rest)
    else if c = '\\' then
      match unescape rest with
      | some (d, rest2) => (parseStringBody fuel rest2).map (fun p => (d :: p.1, p.2))
      | none => none
    else if c.toNat < 0x20 then none
    else (parseStringBody fuel rest).map (fun p => (c :: p.1, p.2))

/-- Parse a JSON natural-number literal (a digit run; a leading zero must
stand alone, as in the JSON grammar). -/
def parseNat : List Char → Option (Nat × List Char)
  | [] => none
  | c :: rest =>
    if c = '0' then
      match rest with
      | d :: _ => if d.isDigit then none else some (0, rest)
      | [] => some (0, [])
    else if c.isDigit then
      some (charsToNat (List.takeWhile Char.isDigit (c :: rest)),
            List.dropWhile Char.isDigit (c :: rest))
    else none

mutual
/-- Parse one JSON value (leading whitespace allowed), returning it with
the unconsumed remainder. -/
def parseValue : Nat → List Char → Option (Json × List Char)
  | 0, _ => none
  | fuel + 1, input =>
    match skipWs input with
    | [] => none
    | c :: rest =>
      if c = 'n' then (dropLit ['u', 'l', 'l'] rest).map (fun r => (Json.null, r))
      else if c = 't' then (dropLit ['r', 'u', 'e'] rest).map (fun r => (Json.bool true, r))
      else if c = 'f' then (dropLit ['a', 'l', 's', 'e'] rest).map (fun r => (Json.bool false, r))
      else if c = '"' then
        (parseStringBody (rest.length + 1) rest).map (fun p => (Json.str p.1, p.2))
      else if c = '[' then
        let r1 := skipWs rest
        if r1.head? = some ']' then some (Json.arr .nil, r1.tail)
        else (parseItems fuel r1).map (fun p => (Json.arr p.1, p.2))
      else if c = '{' then
        let r1 := skipWs rest
        if r1.head? = some '}' then some (Json.obj .nil, r1.tail)
        else (parseFields fuel r1).map (fun p => (Json.obj p.1, p.2))
      else if c = '-' then (parseNat rest).map (fun p => (Json.num (-(p.1 : Int)), p.2))
      else if c.isDigit then (parseNat (c :: rest)).map (fun p => (Json.num (p.1 : Int), p.2))
      else none

/-- Parse the elements of a non-empty JSON array up to the closing `]`. -/
def parseItems : Nat → List Char → Option (JsonList × List Char)
  | 0, _ => none
  | fuel + 1, input =>
    match parseValue fuel input with
    | none => none
    | some (v, rest) =>
      match skipWs rest with
      | ',' :: r2 => (parseItems fuel r2).map (fun p => (JsonList.cons v p.1, p.2))
      | ']' :: r2 => some (JsonList.cons v .nil, r2)
      | _ => none

/-- Parse the members of a non-empty JSON object up to the closing `}`. -/
def parseFields : Nat → List Char → Option (JsonFields × List Char)
  | 0, _ => none
  | fuel + 1, input =>
    match skipWs input with
    | '"' :: r1 =>
      match parseStringBody (r1.length + 1) r1 with
      | none => none
      | some (k, r2) =>
        match skipWs r2 with
        | ':' :: r3 =>
          match parseValue fuel r3 with
          | none => none
          | some (v, r4) =>
            match skipWs r4 with
            | ',' :: r5 => (parseFields fuel r5).map (fun p => (JsonFields.cons k v p.1, p.2))
            | '}' :: r5 => some (JsonFields.cons k v .nil, r5)
            | _ => none
        | _ => none
    | _ => none
end

/-- Parse a complete JSON text: one value, with only whitespace allowed
after it (`JSON.parse` semantics); `none` models a parse error. -/
def tryParse (cs : List Char) : Option Json :=
  match parseValue (cs.length + 1) cs with
  | some (v, rest) => if skipWs rest = [] then some v else none
  | none => none

/-! ### Module constants (`src/index.js` exports) -/

/-- `exports.protocol`. -/
def protocol : Nat := 5

/-- `exports.types`: the packet type names, indexed by type number. -/
def types : List (List Char) :=
  ["CONNECT".data, "DISCONNECT".data, "EVENT".data, "ACK".data, "ERROR".data]

/-- `exports.CONNECT`. -/
def CONNECT : Nat := 0

/-- `exports.DISCONNECT`. -/
def DISCONNECT : Nat := 1

/-- `exports.EVENT`. -/
def EVENT : Nat := 2

/-- `exports.ACK`. -/
def ACK : Nat := 3

/-- `exports.ERROR`. -/
def ERROR : Nat := 4

/-! ### Packets -/

/-- A value handed to `Encoder.encode` as `packet.data`: either a
JSON-representable value, or a value `JSON.stringify` throws on (such as a
cyclic structure), which `_tryStringify` turns into `false`. -/
inductive EncData where
  | val (v : Json)
  | unserializable

/-- A packet passed to the encoder.  `none` models an absent (`undefined`)
field; ids are JavaScript numbers, modelled as exact naturals. -/
structure Packet where
  type : Nat
  nsp : Option (List Char) := none
  id : Option Nat := none
  data : Option EncData := none

/-- A packet produced by the decoder.  Absent fields are `none`; an error
packet built by `buildError` has only `type` and `data` set, and a decoded
`data` is a parsed JSON value (diagnostic strings appear as `Json.str`). -/
structure DecPacket where
  type : Nat
  nsp : Option (List Char) := none
  id : Option JsNumber := none
  data : Option Json := none

/-- `buildError(msg)`: `{ type: exports.ERROR, data: 'parser error: ' + msg }`. -/
def buildError (msg : List Char) : DecPacket :=
  { type := ERROR, data := some (.str ("parser error: ".data ++ msg)) }

/-! ### Encoder -/

namespace Encoder

/-- `Encoder._tryStringify`: `JSON.stringify(object)` inside `try`, with
`false` (here `none`) returned if serialization throws. -/
def _tryStringify : EncData → Option (List Char)
  | .val v => some (jsonToChars v)
  | .unserializable => none

end Encoder

/-- `ERROR_PACKET = exports.ERROR + '"encode error"'`. -/
def ERROR_PACKET : List Char := natToChars ERROR ++ "\"encode error\"".data

namespace Encoder

/-- `Encoder._encodePacket` (the promise always resolves with the returned
string).  The namespace segment is appended only when `packet.nsp` is
truthy (present and non-empty) and differs from `'/'`; the id when
`null != packet.id`; the serialized data when `null != packet.data`, with
the fixed `ERROR_PACKET` frame substituted if serialization fails. -/
def _encodePacket (p : Packet) : List Char :=
  -- let encodedPacket = '' + packet.type
  let e0 := natToChars p.type
  -- if (packet.nsp && '/' !== packet.nsp) encodedPacket += packet.nsp + ','
  let e1 := e0 ++ (match p.nsp with
    | some ns => if ns ≠ [] ∧ ns ≠ "/".data then ns ++ [','] else []
    | none => [])
  -- if (null != packet.id) encodedPacket += packet.id
  let e2 := e1 ++ (match p.id with
    | some n => natToChars n
    | none => [])
  -- if (null != packet.data) { stringify, or return ERROR_PACKET }
  match p.data with
  | none => e2
  | some (.val .null) => e2   -- a JS `null` data fails the `null != packet.data` guard
  | some d =>
    match _tryStringify d with
    | some payload => e2 ++ payload
    | none => ERROR_PACKET

/-- `Encoder.encode`: resolves `_encodePacket` and calls the callback once
with a one-element array of encodings; the delivered array is the result. -/
def encode (p : Packet) : List (List Char) := [_encodePacket p]

end Encoder

/-! ### Decoder -/

/-- The namespace-scanning loop of `Decoder._decodePacket` (`while (++i)`
starting from index `i`): collect characters until the `','` separator or
the end of the string; the result is the collected characters and the final
scan index (the index of the `','`, or the string length).  Fuel makes the
recursion structural; the decoder passes `length + 1`, which suffices since
the index grows by one each step. -/
def nsScan (cs : List Char) : Nat → Nat → List Char × Nat
  | 0, i => ([], i)
  | fuel + 1, i =>
    let j := i + 1
    match charAt cs j with
    | none => ([], j)        -- c is '': `packet.nsp += c` is a no-op, then `i === length` breaks
    | some c =>
      if c = ',' then ([], j)
      else
        let r := nsScan cs fuel j
        (c :: r.1, r.2)

/-- The id-scanning loop of `Decoder._decodePacket`: collect characters
while `Number(c) == c` (digits and whitespace; the out-of-range `''` also
passes but appends nothing and then `i === length` breaks), stepping the
index back by one when a non-numeric character stops the scan. -/
def idScan (cs : List Char) : Nat → Nat → List Char × Nat
  | 0, i => ([], i)
  | fuel + 1, i =>
    let j := i + 1
    match charAt cs j with
    | none => ([], j)        -- c is '': Number('') == '' holds, append is a no-op, `i === length` breaks
    | some c =>
      match jsCharNumVal c with
      | none => ([], j - 1)  -- `--i; break`
      | some _ =>
        let r := idScan cs fuel j
        (c :: r.1, r.2)

namespace Decoder

/-- `Decoder._tryParse`: the promise resolves with the parsed JSON value,
or with `false` (here `none`) on a parse error. -/
def _tryParse (cs : List Char) : Option Json := tryParse cs

/-- The type stage of `Decoder._decodePacket`:
`Number(encodedPacket.charAt(0))`, which is `0` for an empty frame and for
a whitespace character, the digit value for a digit, and `NaN` otherwise. -/
def typeStage (cs : List Char) : JsNumber :=
  match charAt cs 0 with
  | none => .nat 0
  | some c =>
    match jsCharNumVal c with
    | some n => .nat n
    | none => .nan

/-- The namespace stage of `Decoder._decodePacket`: if the character at
position 1 is `/`, run the namespace scan from position 0; otherwise the
namespace is `/` and the scan index stays 0.  Returns the namespace and the
final scan index. -/
def nsStage (cs : List Char) : List Char × Nat :=
  match charAt cs 1 with
  | some c => if c = '/' then nsScan cs (cs.length + 1) 0 else ("/".data, 0)
  | none => ("/".data, 0)

/-- The id stage of `Decoder._decodePacket`, starting at scan index `i`:
`if ('' !== next && Number(next) == next)` run the id scan and convert the
collected characters with `Number`; otherwise there is no id.  Returns the
optional id and the final scan index. -/
def idStage (cs : List Char) (i : Nat) : Option JsNumber × Nat :=
  match charAt cs (i + 1) with
  | some c =>
    if (jsCharNumVal c).isSome then
      let r := idScan cs (cs.length + 1) i
      (some (jsStrToNumber r.1), r.2)
    else (none, i)
  | none => (none, i)

/-- The payload stage of `Decoder._decodePacket`:
`if (encodedPacket.charAt(++i))` parse the remainder as JSON and validate
`payload !== false && (type === ERROR || isArray(payload))`; note that the
`payload !== false` test cannot distinguish a parse failure from the JSON
literal `false`. -/
def payloadStage (cs : List Char) (tv : Nat) (nsp : List Char)
    (idv : Option JsNumber) (i : Nat) : DecPacket :=
  match charAt cs (i + 1) with
  | none => { type := tv, nsp := some nsp, id := idv }
  | some _ =>
    match _tryParse (cs.drop (i + 1)) with
    | none => buildError "invalid payload".data
    | some v =>
      if jsonIsFalse v then buildError "invalid payload".data
      else if tv = ERROR ∨ jsonIsArr v then
        { type := tv, nsp := some nsp, id := idv, data := some v }
      else buildError "invalid payload".data

/-- `Decoder._decodePacket`: type digit, optional namespace, optional id,
optional JSON payload, in four sequential stages over the scan index; an
unknown type or an invalid payload yields a `buildError` packet. -/
def _decodePacket (cs : List Char) : DecPacket :=
  -- const packet = { type: Number(encodedPacket.charAt(0)) }
  match typeStage cs with
  | .nan => buildError "unknown packet type NaN".data
  | .nat tv =>
    -- if (null == exports.types[packet.type]) return buildError(...)
    match types[tv]? with
    | none => buildError ("unknown packet type ".data ++ natToChars tv)
    | some _ =>
      let ns := nsStage cs
      let ids := idStage cs ns.2
      payloadStage cs tv ns.1 ids.1 ids.2

/-- The argument of `Decoder.add`: a string, or any non-string value with
its display text (as interpolated into the thrown message). -/
inductive JsInput where
  | str (s : List Char)
  | other (shown : List Char)

/-- `Decoder.add`: a string is decoded and the resulting packet is emitted
once through the `decoded` event (`Except.ok`); any other argument throws
`Unknown type: ...` synchronously (`Except.error`), emitting nothing. -/
def add : JsInput → Except (List Char) DecPacket
  | .str s => .ok (_decodePacket s)
  | .other shown => .error ("Unknown type: ".data ++ shown)

/-- `Decoder.destroy`: a no-op on the decoder state modelled here. -/
def destroy : Unit := ()

end Decoder

/-! ### Decimal digit lemmas -/

/-- The result of the decoder on a well-formed frame whose scan reached the
payload stage with packet fields `base` and payload text `pl` (specification
form used to state `decode_skeleton`). -/
def payloadResult (tv : Nat) (base : DecPacket) (pl : List Char) : DecPacket :=
  match pl with
  | [] => base
  | c :: pl' =>
    match tryParse (c :: pl') with
    | none => buildError "invalid payload".data
    | some v =>
      if jsonIsFalse v then buildError "invalid payload".data
      else if tv = ERROR ∨ jsonIsArr v then { base with data := some v }
      else buildError "invalid payload".data

/-! ### Validity predicates for the round-trip statements -/

/-- Data values whose top-level serialization survives the decode grammar
for an `ERROR` packet.  Excluded are `null` (dropped by the encoder's
`null != packet.data` guard), the literal `false` (conflated with a parse
failure by the decoder's `payload !== false` test), and non-negative
numbers (whose leading digits are consumed by the decoder's id scan). -/
def errDataOk : Json → Bool
  | .null => false
  | .bool false => false
  | .num (.ofNat _) => false
  | _ => true

/-- A namespace value that survives a round trip: absent, or slash-led with
no comma (this includes the default `"/"`). -/
def validNsp : Option (List Char) → Prop
  | none => True
  | some x => x.head? = some '/' ∧ ',' ∉ x

/-- A data value that survives a round trip for type `t`: absent, an array,
or — only for `ERROR` — any value allowed by `errDataOk`. -/
def validData (t : Nat) : Option EncData → Prop
  | none => True
  | some (.val v) => jsonIsArr v = true ∨ (t = ERROR ∧ errDataOk v = true)
  | some .unserializable => False

/-- Specification form of the decimal digits of `n` (most significant
first), used to reason about the fueled `natToCharsAux`. -/
def natDigits (n : Nat) : List Char :=
  if n < 10 then [Nat.digitChar n]
  else natDigits (n / 10) ++ [Nat.digitChar (n % 10)]
decreasing_by exact Nat.div_lt_self (by omega) (by omega)

mutual
/-- Fuel sufficient for `parseValue` on the serialization of `v`. -/
def jfuel : Json → Nat
  | .arr xs => 1 + jfuelL xs
  | .obj fs => 1 + jfuelF fs
  | _ => 1

/-- Fuel sufficient for `parseItems` on serialized array elements. -/
def jfuelL : JsonList → Nat
  | .nil => 1
  | .cons v vs => 1 + max (jfuel v) (jfuelL vs)

/-- Fuel sufficient for `parseFields` on serialized object members. -/
def jfuelF : JsonFields → Nat
  | .nil => 1
  | .cons _ v fs => 1 + max (jfuel v) (jfuelF fs)
end

theorem digitChar_isDigit {d : Nat} (h : d < 10) : (Nat.digitChar d).isDigit = true := by
  interval_cases d <;> decide

theorem digitChar_toNat {d : Nat} (h : d < 10) : (Nat.digitChar d).toNat = d + 48 := by
  interval_cases d <;> decide

theorem digitChar_ne_zero {d : Nat} (h0 : 0 < d) (h : d < 10) : Nat.digitChar d ≠ '0' := by
  interval_cases d <;> decide

theorem jsCharNumVal_digit {c : Char} (h : c.isDigit = true) :
    jsCharNumVal c = some (c.toNat - 48) := by
  simp [jsCharNumVal, h]

theorem jsCharNumVal_digitChar {d : Nat} (h : d < 10) :
    jsCharNumVal (Nat.digitChar d) = some d := by
  rw [jsCharNumVal_digit (digitChar_isDigit h), digitChar_toNat h]
  simp

theorem natToCharsAux_eq (fuel : Nat) :
    ∀ n acc, n < fuel → natToCharsAux fuel n acc = natDigits n ++ acc := by
  induction fuel with
  | zero => intro n acc h; omega
  | succ fuel ih =>
    intro n acc h
    by_cases hn : n < 10
    · simp [natToCharsAux, hn, natDigits]
    · have hd : n / 10 < fuel := by
        have := Nat.div_lt_self (show 0 < n by omega) (show 1 < 10 by omega)
        omega
      have hnd : natDigits n = natDigits (n / 10) ++ [Nat.digitChar (n % 10)] := by
        rw [natDigits]; simp [hn]
      simp only [natToCharsAux, if_neg hn]
      rw [ih _ _ hd, hnd, List.append_assoc]
      rfl

theorem natToChars_eq (n : Nat) : natToChars n = natDigits n := by
  have := natToCharsAux_eq (n + 1) n [] (by omega)
  simpa [natToChars] using this

theorem natDigits_ne_nil (n : Nat) : natDigits n ≠ [] := by
  rw [natDigits]
  split <;> simp

theorem natDigits_all_digit (n : Nat) : ∀ c ∈ natDigits n, c.isDigit = true := by
  induction n using Nat.strong_induction_on with
  | _ n ih =>
    intro c hc
    rw [natDigits] at hc
    by_cases hn : n < 10
    · simp only [if_pos hn, List.mem_singleton] at hc
      exact hc ▸ digitChar_isDigit hn
    · simp only [if_neg hn, List.mem_append, List.mem_singleton] at hc
      rcases hc with hc | hc
      · exact ih (n / 10) (Nat.div_lt_self (by omega) (by omega)) c hc
      · exact hc ▸ digitChar_isDigit (Nat.mod_lt _ (by omega))

theorem natDigits_head_ne_zero (n : Nat) (h0 : 0 < n) :
    ∀ c, (natDigits n).head? = some c → c ≠ '0' := by
  induction n using Nat.strong_induction_on with
  | _ n ih =>
    intro c hc
    rw [natDigits] at hc
    by_cases hn : n < 10
    · simp only [if_pos hn, List.head?_cons, Option.some.injEq] at hc
      exact hc ▸ digitChar_ne_zero h0 hn
    · simp only [if_neg hn] at hc
      rcases hq : natDigits (n / 10) with _ | ⟨d, t⟩
      · exact absurd hq (natDigits_ne_nil _)
      · rw [hq] at hc
        simp only [List.cons_append, List.head?_cons, Option.some.injEq] at hc
        have : (natDigits (n / 10)).head? = some d := by rw [hq]; rfl
        exact hc ▸ ih (n / 10) (Nat.div_lt_self (by omega) (by omega))
          (by omega) d this

theorem foldl_digits_natDigits (n : Nat) :
    ∀ v, List.foldl (fun a c => 10 * a + (c.toNat - 48)) v (natDigits n) =
      v * 10 ^ (natDigits n).length + n := by
  induction n using Nat.strong_induction_on with
  | _ n ih =>
    intro v
    rw [natDigits]
    by_cases hn : n < 10
    · simp [if_pos hn, digitChar_toNat hn]; ring_nf
    · simp only [if_neg hn, List.foldl_append, List.length_append, List.foldl_cons,
        List.foldl_nil, List.length_cons, List.length_nil]
      rw [ih (n / 10) (Nat.div_lt_self (by omega) (by omega)) v]
      rw [digitChar_toNat (Nat.mod_lt _ (by omega))]
      have : n % 10 + 48 - 48 = n % 10 := by omega
      rw [this, pow_succ]
      have hmd : 10 * (n / 10) + n % 10 = n := by omega
      ring_nf
      omega

theorem charsToNat_natDigits (n : Nat) : charsToNat (natDigits n) = n := by
  have := foldl_digits_natDigits n 0
  simpa [charsToNat] using this

theorem charsToNat_natToChars (n : Nat) : charsToNat (natToChars n) = n := by
  rw [natToChars_eq]; exact charsToNat_natDigits n

/-! ### takeWhile/dropWhile over a satisfying prefix -/

theorem takeWhile_append_of_all {p : Char → Bool} :
    ∀ (ds rest : List Char), (∀ c ∈ ds, p c = true) →
    (∀ c, rest.head? = some c → p c = false) →
    List.takeWhile p (ds ++ rest) = ds ∧ List.dropWhile p (ds ++ rest) = rest := by
  intro ds
  induction ds with
  | nil =>
    intro rest _ hrest
    rcases rest with _ | ⟨r, rs⟩
    · simp
    · have := hrest r rfl
      simp [List.takeWhile, List.dropWhile, this]
  | cons d ds ih =>
    intro rest hds hrest
    have hd : p d = true := hds d (by simp)
    have := ih rest (fun c hc => hds c (by simp [hc])) hrest
    simp [List.takeWhile, List.dropWhile, hd, this.1, this.2]

/-! ### parseNat correctness on serialized digits -/

theorem parseNat_natDigits (n : Nat) (rest : List Char)
    (hrest : ∀ c, rest.head? = some c → c.isDigit = false) :
    parseNat (natDigits n ++ rest) = some (n, rest) := by
  by_cases h0 : n = 0
  · subst h0
    have : natDigits 0 = ['0'] := by rw [natDigits]; rfl
    rw [this]
    rcases rest with _ | ⟨r, rs⟩
    · simp [parseNat]
    · have := hrest r rfl
      simp [parseNat, this]
  · rcases hq : natDigits n with _ | ⟨c, t⟩
    · exact absurd hq (natDigits_ne_nil _)
    · have hcd : c.isDigit = true := natDigits_all_digit n c (by rw [hq]; simp)
      have hcz : c ≠ '0' := natDigits_head_ne_zero n (by omega) c (by rw [hq]; rfl)
      have hall : ∀ x ∈ (c :: t : List Char), x.isDigit = true := by
        rw [← hq]; exact natDigits_all_digit n
      have htw := takeWhile_append_of_all (c :: t) rest hall hrest
      have hstep : parseNat (c :: (t ++ rest)) =
          some (charsToNat (List.takeWhile Char.isDigit (c :: (t ++ rest))),
                List.dropWhile Char.isDigit (c :: (t ++ rest))) := by
        simp [parseNat, hcz, hcd]
      have h1 : List.takeWhile Char.isDigit (c :: (t ++ rest)) = c :: t := by
        simpa using htw.1
      have h2 : List.dropWhile Char.isDigit (c :: (t ++ rest)) = rest := by
        simpa using htw.2
      rw [List.cons_append, hstep, h1, h2, ← hq, charsToNat_natDigits]

/-! ### String escape roundtrip -/

theorem hexVal_digitChar {d : Nat} (h : d < 16) : hexVal (Nat.digitChar d) = some d := by
  interval_cases d <;> decide

theorem escChar_length_pos (c : Char) : 1 ≤ (escChar c).length := by
  unfold escChar
  split_ifs <;> simp

theorem parseStringBody_quoted :
    ∀ (s : List Char) (fuel : Nat) (rest : List Char),
      (s.flatMap escChar).length < fuel →
      parseStringBody fuel (s.flatMap escChar ++ ('"' :: rest)) = some (s, rest) := by
  intro s
  induction s with
  | nil =>
    intro fuel rest h
    rcases fuel with _ | f
    · omega
    · rfl
  | cons c s ih =>
    intro fuel rest h
    rcases fuel with _ | f
    · omega
    · rw [List.flatMap_cons, List.append_assoc]
      rw [List.flatMap_cons, List.length_append] at h
      by_cases h1 : c = '"'
      · have hesc : escChar c = ['\\', '"'] := by rw [h1]; rfl
        rw [hesc] at h ⊢
        simp only [List.length_cons, List.length_nil] at h
        simp [parseStringBody, unescape, escDecode, h1, ih f rest (by omega)]
      · by_cases h2 : c = '\\'
        · have hesc : escChar c = ['\\', '\\'] := by rw [h2]; rfl
          rw [hesc] at h ⊢
          simp only [List.length_cons, List.length_nil] at h
          simp [parseStringBody, unescape, escDecode, h2, ih f rest (by omega)]
        · by_cases h3 : c = '\x08'
          · have hesc : escChar c = ['\\', 'b'] := by rw [h3]; rfl
            rw [hesc] at h ⊢
            simp only [List.length_cons, List.length_nil] at h
            simp [parseStringBody, unescape, escDecode, h3, ih f rest (by omega)]
          · by_cases h4 : c = '\x0c'
            · have hesc : escChar c = ['\\', 'f'] := by rw [h4]; rfl
              rw [hesc] at h ⊢
              simp only [List.length_cons, List.length_nil] at h
              simp [parseStringBody, unescape, escDecode, h4, ih f rest (by omega)]
            · by_cases h5 : c = '\n'
              · have hesc : escChar c = ['\\', 'n'] := by rw [h5]; rfl
                rw [hesc] at h ⊢
                simp only [List.length_cons, List.length_nil] at h
                simp [parseStringBody, unescape, escDecode, h5, ih f rest (by omega)]
              · by_cases h6 : c = '\r'
                · have hesc : escChar c = ['\\', 'r'] := by rw [h6]; rfl
                  rw [hesc] at h ⊢
                  simp only [List.length_cons, List.length_nil] at h
                  simp [parseStringBody, unescape, escDecode, h6, ih f rest (by omega)]
                · by_cases h7 : c = '\t'
                  · have hesc : escChar c = ['\\', 't'] := by rw [h7]; rfl
                    rw [hesc] at h ⊢
                    simp only [List.length_cons, List.length_nil] at h
                    simp [parseStringBody, unescape, escDecode, h7, ih f rest (by omega)]
                  · by_cases h8 : c.toNat < 0x20
                    · have hesc : escChar c =
                          ['\\', 'u', '0', '0', Nat.digitChar (c.toNat / 16),
                           Nat.digitChar (c.toNat % 16)] := by
                        simp [escChar, h1, h2, h3, h4, h5, h6, h7, h8]
                      rw [hesc] at h ⊢
                      simp only [List.length_cons, List.length_nil] at h
                      have hv1 : hexVal (Nat.digitChar (c.toNat / 16)) = some (c.toNat / 16) :=
                        hexVal_digitChar (by omega)
                      have hv2 : hexVal (Nat.digitChar (c.toNat % 16)) = some (c.toNat % 16) :=
                        hexVal_digitChar (Nat.mod_lt _ (by omega))
                      have hcode : ((0 * 16 + 0) * 16 + c.toNat / 16) * 16 + c.toNat % 16 =
                          c.toNat := by omega
                      have hv0 : hexVal '0' = some 0 := by decide
                      have hsplit : c.toNat / 16 * 16 + c.toNat % 16 = c.toNat := by omega
                      simp [parseStringBody, unescape, uHex, escDecode, hv0, hv1, hv2, hcode,
                        hsplit, ih f rest (by omega)]
                    · have hesc : escChar c = [c] := by
                        simp [escChar, h1, h2, h3, h4, h5, h6, h7, h8]
                      rw [hesc] at h ⊢
                      simp only [List.length_cons, List.length_nil] at h
                      simp [parseStringBody, h1, h2, h8, ih f rest (by omega)]

/-! ### Heads of serialized values -/

theorem skipWs_not_ws {c : Char} (l : List Char) (h : isJsonWs c = false) :
    skipWs (c :: l) = c :: l := by
  simp [skipWs, h]

theorem digit_head_facts {c : Char} (hd : c.isDigit = true) :
    c ≠ 'n' ∧ c ≠ 't' ∧ c ≠ 'f' ∧ c ≠ '"' ∧ c ≠ '[' ∧ c ≠ '{' ∧ c ≠ '-' ∧
    isJsonWs c = false ∧ c ≠ ']' ∧ c ≠ '}' := by
  refine ⟨?_, ?_, ?_, ?_, ?_, ?_, ?_, ?_, ?_, ?_⟩ <;>
    first
      | (intro h; rw [h] at hd; exact absurd hd (by decide))
      | (rcases hw : isJsonWs c with _ | _
         · rfl
         · exfalso
           have hws : ((c = ' ' ∨ c = '\t') ∨ c = '\n') ∨ c = '\r' := by
             simpa [isJsonWs] using hw
           rcases hws with ((h | h) | h) | h <;> rw [h] at hd <;> exact absurd hd (by decide))

/-- The first character of a serialized JSON value is never whitespace and
never a structural terminator. -/
theorem jsonToChars_head (v : Json) :
    ∃ c t, jsonToChars v = c :: t ∧ isJsonWs c = false ∧ c ≠ ']' ∧ c ≠ '}' := by
  cases v with
  | null => refine ⟨'n', _, rfl, ?_, ?_, ?_⟩ <;> decide
  | bool b =>
    cases b
    · refine ⟨'f', _, rfl, ?_, ?_, ?_⟩ <;> decide
    · refine ⟨'t', _, rfl, ?_, ?_, ?_⟩ <;> decide
  | num n =>
    cases n with
    | ofNat m =>
      rcases hq : natDigits m with _ | ⟨c, t⟩
      · exact absurd hq (natDigits_ne_nil _)
      · have hcd : c.isDigit = true := natDigits_all_digit m c (by rw [hq]; simp)
        have hf := digit_head_facts hcd
        refine ⟨c, t, ?_, hf.2.2.2.2.2.2.2.1, hf.2.2.2.2.2.2.2.2.1, hf.2.2.2.2.2.2.2.2.2⟩
        show intToChars (.ofNat m) = c :: t
        rw [show intToChars (.ofNat m) = natToChars m from rfl, natToChars_eq, hq]
    | negSucc m => refine ⟨'-', _, rfl, ?_, ?_, ?_⟩ <;> decide
  | str s => refine ⟨'"', _, rfl, ?_, ?_, ?_⟩ <;> decide
  | arr xs => refine ⟨'[', _, rfl, ?_, ?_, ?_⟩ <;> decide
  | obj fs => refine ⟨'{', _, rfl, ?_, ?_, ?_⟩ <;> decide

/-! ### Fuel requirements for parsing serialized values -/


/-! ### Parsing serialized values -/

theorem jfuel_pos (v : Json) : 1 ≤ jfuel v := by
  cases v <;> simp [jfuel]

theorem jfuelL_pos (xs : JsonList) : 1 ≤ jfuelL xs := by
  cases xs <;> simp [jfuelL]

theorem jfuelF_pos (fs : JsonFields) : 1 ≤ jfuelF fs := by
  cases fs <;> simp [jfuelF]

theorem jsonListToChars_cons (x : Json) (xs : JsonList) :
    ∃ tl, jsonListToChars (.cons x xs) = jsonToChars x ++ tl := by
  cases xs with
  | nil => exact ⟨[], by simp [jsonListToChars]⟩
  | cons y ys => exact ⟨',' :: jsonListToChars (.cons y ys), by simp [jsonListToChars]⟩

theorem parseValue_lbracket (fuel : Nat) (d : Char) (t : List Char)
    (hw : isJsonWs d = false) (hne : d ≠ ']') :
    parseValue (fuel + 1) ('[' :: d :: t) =
      (parseItems fuel (d :: t)).map (fun p => (Json.arr p.1, p.2)) := by
  have hsk : skipWs (d :: t) = d :: t := skipWs_not_ws t hw
  have hne' : ¬((d :: t : List Char).head? = some ']') := by simp [hne]
  rw [parseValue, skipWs_not_ws _ (show isJsonWs '[' = false by decide)]
  simp [hsk, hne']
  exact fun h => absurd h hne

theorem parseValue_lbrace (fuel : Nat) (d : Char) (t : List Char)
    (hw : isJsonWs d = false) (hne : d ≠ '}') :
    parseValue (fuel + 1) ('{' :: d :: t) =
      (parseFields fuel (d :: t)).map (fun p => (Json.obj p.1, p.2)) := by
  have hsk : skipWs (d :: t) = d :: t := skipWs_not_ws t hw
  have hne' : ¬((d :: t : List Char).head? = some '}') := by simp [hne]
  rw [parseValue, skipWs_not_ws _ (show isJsonWs '{' = false by decide)]
  simp [hsk, hne']
  exact fun h => absurd h hne

theorem head_cons_not_digit {d : Char} {l : List Char} (hd : d.isDigit = false) :
    ∀ c, ((d :: l : List Char).head? = some c) → c.isDigit = false := by
  intro c hc
  simp only [List.head?_cons, Option.some.injEq] at hc
  exact hc ▸ hd

theorem jsonFieldsToChars_cons (k : List Char) (v : Json) (fs : JsonFields) :
    ∃ tl, jsonFieldsToChars (.cons k v fs) = quoteChars k ++ ':' :: (jsonToChars v ++ tl) := by
  cases fs with
  | nil => exact ⟨[], by simp [jsonFieldsToChars]⟩
  | cons k2 v2 fs2 =>
    exact ⟨',' :: jsonFieldsToChars (.cons k2 v2 fs2), by simp [jsonFieldsToChars]⟩

theorem parse_serialized : ∀ fuel : Nat,
    (∀ v rest, jfuel v ≤ fuel → (∀ c, rest.head? = some c → c.isDigit = false) →
      parseValue fuel (jsonToChars v ++ rest) = some (v, rest)) ∧
    (∀ x xs rest, jfuelL (JsonList.cons x xs) ≤ fuel →
      parseItems fuel (jsonListToChars (JsonList.cons x xs) ++ (']' :: rest)) =
        some (JsonList.cons x xs, rest)) ∧
    (∀ k v fs rest, jfuelF (JsonFields.cons k v fs) ≤ fuel →
      parseFields fuel (jsonFieldsToChars (JsonFields.cons k v fs) ++ ('}' :: rest)) =
        some (JsonFields.cons k v fs, rest)) := by
  intro fuel
  induction fuel with
  | zero =>
    refine ⟨fun v _ h _ => ?_, fun x xs _ h => ?_, fun k v fs _ h => ?_⟩
    · have := jfuel_pos v; omega
    · have := jfuelL_pos (.cons x xs); omega
    · have := jfuelF_pos (.cons k v fs); omega
  | succ fuel ih =>
    obtain ⟨ihV, ihL, ihF⟩ := ih
    refine ⟨?_, ?_, ?_⟩
    · -- parseValue on a serialized value
      intro v rest hfu hrest
      cases v with
      | null =>
        show parseValue (fuel + 1) ('n' :: 'u' :: 'l' :: 'l' :: rest) = _
        rw [parseValue]
        simp [skipWs, isJsonWs, dropLit]
      | bool b =>
        cases b with
        | true =>
          show parseValue (fuel + 1) ('t' :: 'r' :: 'u' :: 'e' :: rest) = _
          rw [parseValue]
          simp [skipWs, isJsonWs, dropLit]
        | false =>
          show parseValue (fuel + 1) ('f' :: 'a' :: 'l' :: 's' :: 'e' :: rest) = _
          rw [parseValue]
          simp [skipWs, isJsonWs, dropLit]
      | num n =>
        cases n with
        | ofNat m =>
          rcases hq : natDigits m with _ | ⟨c, t⟩
          · exact absurd hq (natDigits_ne_nil _)
          · have hcd : c.isDigit = true := natDigits_all_digit m c (by rw [hq]; simp)
            have hf := digit_head_facts hcd
            have hshape : jsonToChars (.num (.ofNat m)) = c :: t := by
              rw [show jsonToChars (.num (.ofNat m)) = natToChars m from rfl,
                natToChars_eq, hq]
            rw [hshape, List.cons_append, parseValue,
              skipWs_not_ws _ hf.2.2.2.2.2.2.2.1]
            simp only [if_neg hf.1, if_neg hf.2.1, if_neg hf.2.2.1, if_neg hf.2.2.2.1,
              if_neg hf.2.2.2.2.1, if_neg hf.2.2.2.2.2.1, if_neg hf.2.2.2.2.2.2.1, hcd,
              if_pos]
            rw [← List.cons_append, ← hq, parseNat_natDigits m rest hrest]
            rfl
        | negSucc m =>
          rcases hq : natDigits (m + 1) with _ | ⟨c, t⟩
          · exact absurd hq (natDigits_ne_nil _)
          · have hshape : jsonToChars (.num (.negSucc m)) = '-' :: natDigits (m + 1) := by
              rw [show jsonToChars (.num (.negSucc m)) = '-' :: natToChars (m + 1) from rfl,
                natToChars_eq]
            rw [hshape, List.cons_append, parseValue, skipWs_not_ws _ (by decide)]
            simp only [reduceIte]
            rw [parseNat_natDigits (m + 1) rest hrest]
            simp [Int.negSucc_eq]
      | str s =>
        have hshape : jsonToChars (.str s) ++ rest =
            '"' :: (s.flatMap escChar ++ ('"' :: rest)) := by
          show quoteChars s ++ rest = _
          simp [quoteChars]
        rw [hshape, parseValue, skipWs_not_ws _ (by decide)]
        simp only [reduceIte]
        rw [parseStringBody_quoted s _ rest (by simp [List.length_append]; omega)]
        rfl
      | arr xs =>
        cases xs with
        | nil =>
          show parseValue (fuel + 1) ('[' :: ']' :: rest) = _
          rw [parseValue]
          simp [skipWs, isJsonWs]
        | cons x xs =>
          obtain ⟨c, t, hct, hcw, hc1, _⟩ := jsonToChars_head x
          obtain ⟨tl, htl⟩ := jsonListToChars_cons x xs
          have hin : jsonListToChars (.cons x xs) ++ (']' :: rest) =
              c :: (t ++ tl ++ (']' :: rest)) := by
            rw [htl, hct]; simp [List.append_assoc]
          have hshape : jsonToChars (.arr (.cons x xs)) ++ rest =
              '[' :: (jsonListToChars (.cons x xs) ++ (']' :: rest)) := by
            show ('[' :: (jsonListToChars (.cons x xs) ++ [']'])) ++ rest = _
            simp [List.append_assoc]
          rw [hshape, hin, parseValue_lbracket fuel c _ hcw hc1, ← hin]
          rw [ihL x xs rest (by rw [jfuel] at hfu; omega)]
          rfl
      | obj fs =>
        cases fs with
        | nil =>
          show parseValue (fuel + 1) ('{' :: '}' :: rest) = _
          rw [parseValue]
          simp [skipWs, isJsonWs]
        | cons k v fs =>
          obtain ⟨tl, htl⟩ := jsonFieldsToChars_cons k v fs
          have hin : jsonFieldsToChars (.cons k v fs) ++ ('}' :: rest) =
              '"' :: ((k.flatMap escChar ++
                ('"' :: (':' :: (jsonToChars v ++ tl)))) ++ ('}' :: rest)) := by
            rw [htl]; simp [quoteChars, List.append_assoc]
          have hshape : jsonToChars (.obj (.cons k v fs)) ++ rest =
              '{' :: (jsonFieldsToChars (.cons k v fs) ++ ('}' :: rest)) := by
            show ('{' :: (jsonFieldsToChars (.cons k v fs) ++ ['}'])) ++ rest = _
            simp [List.append_assoc]
          rw [hshape, hin, parseValue_lbrace fuel '"' _ (by decide) (by decide), ← hin]
          rw [ihF k v fs rest (by rw [jfuel] at hfu; omega)]
          rfl
    · -- parseItems on serialized elements
      intro x xs rest hfu
      rw [jfuelL] at hfu
      have hmax : max (jfuel x) (jfuelL xs) ≤ fuel := by omega
      have hx : jfuel x ≤ fuel := le_trans (le_max_left _ _) hmax
      cases xs with
      | nil =>
        have hone : jsonListToChars (.cons x .nil) = jsonToChars x := by
          simp [jsonListToChars]
        rw [hone, parseItems,
          ihV x (']' :: rest) hx (head_cons_not_digit (by decide))]
        simp [skipWs, isJsonWs]
      | cons y ys =>
        have hys : jfuelL (.cons y ys) ≤ fuel := le_trans (le_max_right _ _) hmax
        have h2 : jsonListToChars (.cons x (.cons y ys)) ++ (']' :: rest) =
            jsonToChars x ++
              (',' :: (jsonListToChars (.cons y ys) ++ (']' :: rest))) := by
          simp [jsonListToChars, List.append_assoc]
        rw [h2, parseItems,
          ihV x _ hx (head_cons_not_digit (by decide))]
        have hsk : skipWs (',' :: (jsonListToChars (.cons y ys) ++ (']' :: rest))) =
            ',' :: (jsonListToChars (.cons y ys) ++ (']' :: rest)) :=
          skipWs_not_ws _ (by decide)
        simp only [hsk]
        rw [ihL y ys rest hys]
        rfl
    · -- parseFields on serialized members
      intro k v fs rest hfu
      rw [jfuelF] at hfu
      have hmax : max (jfuel v) (jfuelF fs) ≤ fuel := by omega
      have hv : jfuel v ≤ fuel := le_trans (le_max_left _ _) hmax
      cases fs with
      | nil =>
        have hshape : jsonFieldsToChars (.cons k v .nil) ++ ('}' :: rest) =
            '"' :: (k.flatMap escChar ++
              ('"' :: (':' :: (jsonToChars v ++ ('}' :: rest))))) := by
          simp [jsonFieldsToChars, quoteChars, List.append_assoc]
        rw [hshape, parseFields, skipWs_not_ws _ (by decide)]
        have hq := parseStringBody_quoted k
          ((k.flatMap escChar ++ ('"' :: (':' :: (jsonToChars v ++ ('}' :: rest))))).length + 1)
          (':' :: (jsonToChars v ++ ('}' :: rest)))
          (by simp [List.length_append]; omega)
        have hv2 := ihV v ('}' :: rest) hv (head_cons_not_digit (by decide))
        have hsk1 : skipWs (':' :: (jsonToChars v ++ ('}' :: rest))) =
            ':' :: (jsonToChars v ++ ('}' :: rest)) := skipWs_not_ws _ (by decide)
        have hsk2 : skipWs ('}' :: rest) = '}' :: rest := skipWs_not_ws _ (by decide)
        simp only [hq, hsk1, hv2, hsk2]
      | cons k2 v2 fs2 =>
        have hfs2 : jfuelF (.cons k2 v2 fs2) ≤ fuel := le_trans (le_max_right _ _) hmax
        have hshape : jsonFieldsToChars (.cons k v (.cons k2 v2 fs2)) ++ ('}' :: rest) =
            '"' :: (k.flatMap escChar ++
              ('"' :: (':' :: (jsonToChars v ++
                (',' :: (jsonFieldsToChars (.cons k2 v2 fs2) ++ ('}' :: rest))))))) := by
          simp [jsonFieldsToChars, quoteChars, List.append_assoc]
        rw [hshape, parseFields, skipWs_not_ws _ (by decide)]
        have hq := parseStringBody_quoted k
          ((k.flatMap escChar ++
            ('"' :: (':' :: (jsonToChars v ++
              (',' :: (jsonFieldsToChars (.cons k2 v2 fs2) ++ ('}' :: rest))))))).length + 1)
          (':' :: (jsonToChars v ++
            (',' :: (jsonFieldsToChars (.cons k2 v2 fs2) ++ ('}' :: rest)))))
          (by simp [List.length_append]; omega)
        have hv2 := ihV v (',' :: (jsonFieldsToChars (.cons k2 v2 fs2) ++ ('}' :: rest)))
          hv (head_cons_not_digit (by decide))
        have hfin := ihF k2 v2 fs2 rest hfs2
        have hsk1 : skipWs (':' :: (jsonToChars v ++
            (',' :: (jsonFieldsToChars (.cons k2 v2 fs2) ++ ('}' :: rest))))) =
            ':' :: (jsonToChars v ++
              (',' :: (jsonFieldsToChars (.cons k2 v2 fs2) ++ ('}' :: rest)))) :=
          skipWs_not_ws _ (by decide)
        have hsk2 : skipWs (',' :: (jsonFieldsToChars (.cons k2 v2 fs2) ++ ('}' :: rest))) =
            ',' :: (jsonFieldsToChars (.cons k2 v2 fs2) ++ ('}' :: rest)) :=
          skipWs_not_ws _ (by decide)
        simp only [hq, hsk1, hv2, hsk2, hfin]
        rfl

theorem jsonToChars_length_pos (v : Json) : 1 ≤ (jsonToChars v).length := by
  obtain ⟨c, t, h, -, -⟩ := jsonToChars_head v
  simp [h]

mutual
theorem jfuel_le (v : Json) : jfuel v ≤ (jsonToChars v).length + 1 := by
  cases v with
  | arr xs =>
    have h := jfuelL_le xs
    show 1 + jfuelL xs ≤ ('[' :: (jsonListToChars xs ++ [']'])).length + 1
    simp only [List.length_cons, List.length_append, List.length_singleton]
    omega
  | obj fs =>
    have h := jfuelF_le fs
    show 1 + jfuelF fs ≤ ('{' :: (jsonFieldsToChars fs ++ ['}'])).length + 1
    simp only [List.length_cons, List.length_append, List.length_singleton]
    omega
  | null => simp [jfuel]
  | bool b => simp [jfuel]
  | num n => simp [jfuel]
  | str s => simp [jfuel]

theorem jfuelL_le (xs : JsonList) : jfuelL xs ≤ (jsonListToChars xs).length + 2 := by
  cases xs with
  | nil => simp [jfuelL]
  | cons x xs =>
    have hx := jfuel_le x
    have hxp := jsonToChars_length_pos x
    cases xs with
    | nil =>
      show 1 + max (jfuel x) (jfuelL .nil) ≤ (jsonListToChars (.cons x .nil)).length + 2
      have h1 : jsonListToChars (.cons x .nil) = jsonToChars x := by simp [jsonListToChars]
      have h2 : jfuelL JsonList.nil = 1 := by simp [jfuelL]
      rw [h1, h2]
      omega
    | cons y ys =>
      have hys := jfuelL_le (.cons y ys)
      show 1 + max (jfuel x) (jfuelL (.cons y ys)) ≤
        (jsonListToChars (.cons x (.cons y ys))).length + 2
      have h1 : jsonListToChars (.cons x (.cons y ys)) =
          jsonToChars x ++ ',' :: jsonListToChars (.cons y ys) := by simp [jsonListToChars]
      rw [h1]
      simp only [List.length_append, List.length_cons]
      omega

theorem jfuelF_le (fs : JsonFields) : jfuelF fs ≤ (jsonFieldsToChars fs).length + 2 := by
  cases fs with
  | nil => simp [jfuelF]
  | cons k v fs =>
    have hv := jfuel_le v
    have hvp := jsonToChars_length_pos v
    cases fs with
    | nil =>
      show 1 + max (jfuel v) (jfuelF .nil) ≤ (jsonFieldsToChars (.cons k v .nil)).length + 2
      have h1 : jsonFieldsToChars (.cons k v .nil) = quoteChars k ++ ':' :: jsonToChars v := by
        simp [jsonFieldsToChars]
      have h2 : jfuelF JsonFields.nil = 1 := by simp [jfuelF]
      rw [h1, h2]
      simp only [List.length_append, List.length_cons]
      omega
    | cons k2 v2 fs2 =>
      have hfs := jfuelF_le (.cons k2 v2 fs2)
      show 1 + max (jfuel v) (jfuelF (.cons k2 v2 fs2)) ≤
        (jsonFieldsToChars (.cons k v (.cons k2 v2 fs2))).length + 2
      have h1 : jsonFieldsToChars (.cons k v (.cons k2 v2 fs2)) =
          quoteChars k ++ ':' :: jsonToChars v ++
            ',' :: jsonFieldsToChars (.cons k2 v2 fs2) := by
        simp [jsonFieldsToChars]
      rw [h1]
      simp only [List.length_append, List.length_cons]
      omega
end

/-- The modelled parser inverts the modelled serializer: this is the
contract assumed of the external JSON capability. -/
theorem tryParse_jsonToChars (v : Json) : tryParse (jsonToChars v) = some v := by
  unfold tryParse
  have h := (parse_serialized ((jsonToChars v).length + 1)).1 v []
    (le_trans (jfuel_le v) (by omega)) (by simp)
  rw [List.append_nil] at h
  rw [h]
  rfl

/-! ### Scan-loop lemmas -/

theorem charAt_eq (cs : List Char) (i : Nat) : charAt cs i = (cs.drop i).head? := by
  simp [charAt, List.head?_eq_getElem?, List.getElem?_drop]

theorem nsScan_comma (m : List Char) (hm : ',' ∉ m) :
    ∀ (cs rest : List Char) (i fuel : Nat), m.length < fuel →
      cs.drop (i + 1) = m ++ ',' :: rest →
      nsScan cs fuel i = (m, i + 1 + m.length) := by
  induction m with
  | nil =>
    intro cs rest i fuel hfu hdrop
    rcases fuel with _ | f
    · omega
    · have hc : charAt cs (i + 1) = some ',' := by
        rw [charAt_eq, hdrop]; rfl
      rw [nsScan, hc]
      simp
  | cons c m ih =>
    intro cs rest i fuel hfu hdrop
    rcases fuel with _ | f
    · omega
    · have hc : charAt cs (i + 1) = some c := by
        rw [charAt_eq, hdrop]; rfl
      have hcne : c ≠ ',' := fun h => hm (h ▸ List.mem_cons_self c m)
      have hdrop2 : cs.drop (i + 1 + 1) = m ++ ',' :: rest := by
        rw [← List.tail_drop, hdrop]; rfl
      have hrec := ih (fun h => hm (List.mem_cons_of_mem c h)) cs rest (i + 1) f
        (by simpa using Nat.lt_of_succ_lt_succ (by simpa using hfu)) hdrop2
      rw [nsScan, hc]
      simp only [if_neg hcne, hrec]
      simp only [List.length_cons, Prod.mk.injEq, List.cons.injEq, true_and]
      omega

theorem idScan_stop (ds : List Char) :
    ∀ (cs rest : List Char) (c : Char) (i fuel : Nat),
      (∀ x ∈ ds, (jsCharNumVal x).isSome) → ds.length < fuel →
      cs.drop (i + 1) = ds ++ c :: rest → jsCharNumVal c = none →
      idScan cs fuel i = (ds, i + ds.length) := by
  induction ds with
  | nil =>
    intro cs rest c i fuel _ hfu hdrop hc
    rcases fuel with _ | f
    · omega
    · have hca : charAt cs (i + 1) = some c := by
        rw [charAt_eq, hdrop]; rfl
      rw [idScan, hca]
      simp only [hc]
      simp
  | cons d ds ih =>
    intro cs rest c i fuel hds hfu hdrop hc
    rcases fuel with _ | f
    · omega
    · have hca : charAt cs (i + 1) = some d := by
        rw [charAt_eq, hdrop]; rfl
      have hd : (jsCharNumVal d).isSome := hds d (List.mem_cons_self d ds)
      have hdrop2 : cs.drop (i + 1 + 1) = ds ++ c :: rest := by
        rw [← List.tail_drop, hdrop]; rfl
      have hrec := ih cs rest c (i + 1) f
        (fun x hx => hds x (List.mem_cons_of_mem d hx))
        (by simp at hfu ⊢; omega) hdrop2 hc
      rw [idScan, hca]
      rcases hdv : jsCharNumVal d with _ | dv
      · rw [hdv] at hd; exact absurd hd (by simp)
      · simp only [hdv, hrec]
        simp only [List.length_cons, Prod.mk.injEq, List.cons.injEq, true_and]
        omega

theorem idScan_to_end (ds : List Char) :
    ∀ (cs : List Char) (i fuel : Nat),
      (∀ x ∈ ds, (jsCharNumVal x).isSome) → ds.length < fuel →
      cs.drop (i + 1) = ds →
      idScan cs fuel i = (ds, i + ds.length + 1) := by
  induction ds with
  | nil =>
    intro cs i fuel _ hfu hdrop
    rcases fuel with _ | f
    · omega
    · have hca : charAt cs (i + 1) = none := by
        rw [charAt_eq, hdrop]; rfl
      rw [idScan, hca]
      simp
  | cons d ds ih =>
    intro cs i fuel hds hfu hdrop
    rcases fuel with _ | f
    · omega
    · have hca : charAt cs (i + 1) = some d := by
        rw [charAt_eq, hdrop]; rfl
      have hd : (jsCharNumVal d).isSome := hds d (List.mem_cons_self d ds)
      have hdrop2 : cs.drop (i + 1 + 1) = ds := by
        rw [← List.tail_drop, hdrop]; rfl
      have hrec := ih cs (i + 1) f
        (fun x hx => hds x (List.mem_cons_of_mem d hx))
        (by simp at hfu ⊢; omega) hdrop2
      rw [idScan, hca]
      rcases hdv : jsCharNumVal d with _ | dv
      · rw [hdv] at hd; exact absurd hd (by simp)
      · simp only [hdv, hrec]
        simp only [List.length_cons, Prod.mk.injEq, List.cons.injEq, true_and]
        omega

/-! ### Character class helpers for the decoder -/

theorem digit_toNat_bounds {c : Char} (h : c.isDigit = true) :
    48 ≤ c.toNat ∧ c.toNat ≤ 57 := by
  simp [Char.isDigit] at h
  exact ⟨h.1, h.2⟩

theorem digit_not_jsWs {c : Char} (h : c.isDigit = true) : isJsWs c = false := by
  have hb := digit_toNat_bounds h
  rcases hw : isJsWs c
  · rfl
  · exfalso
    simp [isJsWs] at hw
    omega

theorem digit_ne_slash {c : Char} (h : c.isDigit = true) : c ≠ '/' := by
  intro he
  rw [he] at h
  exact absurd h (by decide)

theorem jsCharNumVal_isSome_of_digit {c : Char} (h : c.isDigit = true) :
    (jsCharNumVal c).isSome = true := by
  rw [jsCharNumVal_digit h]
  rfl

theorem dropWhile_jsWs_of_digits (l : List Char) (h : ∀ c ∈ l, c.isDigit = true) :
    l.dropWhile isJsWs = l := by
  cases l with
  | nil => rfl
  | cons d t =>
    have hd : isJsWs d = false := digit_not_jsWs (h d (List.mem_cons_self d t))
    simp [List.dropWhile_cons, hd]

theorem jsStrToNumber_digits (ds : List Char) (hne : ds ≠ [])
    (hds : ∀ c ∈ ds, c.isDigit = true) :
    jsStrToNumber ds = .nat (charsToNat ds) := by
  unfold jsStrToNumber
  have h1 : ds.dropWhile isJsWs = ds := dropWhile_jsWs_of_digits ds hds
  have h2 : ds.reverse.dropWhile isJsWs = ds.reverse :=
    dropWhile_jsWs_of_digits ds.reverse (fun c hc => hds c (List.mem_reverse.mp hc))
  rw [h1, h2, List.reverse_reverse]
  have h3 : ds.isEmpty = false := by
    cases ds
    · exact absurd rfl hne
    · rfl
  have h4 : ds.all Char.isDigit = true := List.all_eq_true.mpr hds
  simp only [h3, h4]
  simp

theorem charAt_append_len (pre post : List Char) :
    charAt (pre ++ post) pre.length = post.head? := by
  rw [charAt_eq, List.drop_left]

theorem types_get_lt {tv : Nat} (h : tv ≤ 4) : ∃ s, types[tv]? = some s := by
  have hlt : tv < types.length := by simp [types]; omega
  exact ⟨types.get ⟨tv, hlt⟩, List.getElem?_eq_getElem hlt⟩

/-! ### Stage lemmas for the decoder -/

theorem charAt_none_of_drop {cs : List Char} {i : Nat} (h : cs.drop i = []) :
    charAt cs i = none := by
  rw [charAt_eq, h]; rfl

theorem charAt_some_of_drop {cs : List Char} {i : Nat} {c : Char} {t : List Char}
    (h : cs.drop i = c :: t) : charAt cs i = some c := by
  rw [charAt_eq, h]; rfl

namespace Decoder

theorem charAt_cons_zero (c : Char) (rest : List Char) :
    charAt (c :: rest) 0 = some c := by
  simp [charAt]

theorem typeStage_cons_digit {tv : Nat} (h : tv < 10) (rest : List Char) :
    typeStage (Nat.digitChar tv :: rest) = .nat tv := by
  simp [typeStage, charAt_cons_zero, jsCharNumVal_digitChar h]

theorem nsStage_noslash (cs : List Char)
    (h : ∀ c, charAt cs 1 = some c → c ≠ '/') :
    nsStage cs = ("/".data, 0) := by
  unfold nsStage
  rcases hc : charAt cs 1 with _ | c
  · rfl
  · simp [h c hc]

theorem nsStage_slash (cs m rest : List Char)
    (hm : ',' ∉ m) (hdrop : cs.drop 1 = ('/' :: m) ++ ',' :: rest) :
    nsStage cs = ('/' :: m, m.length + 2) := by
  have hc1 : charAt cs 1 = some '/' := charAt_some_of_drop (by rw [hdrop]; rfl)
  have hfu : ('/' :: m).length < cs.length + 1 := by
    have h2 : (cs.drop 1).length = cs.length - 1 := List.length_drop 1 cs
    rw [hdrop] at h2
    simp [List.length_append] at h2
    simp only [List.length_cons]
    omega
  have hm' : ',' ∉ ('/' :: m : List Char) := by
    intro hmem
    rcases List.mem_cons.mp hmem with h | h
    · exact absurd h (by decide)
    · exact hm h
  have hscan := nsScan_comma ('/' :: m) hm' cs rest 0 (cs.length + 1) hfu (by simpa using hdrop)
  unfold nsStage
  rw [hc1]
  simp [hscan]
  omega

theorem idStage_eod (cs : List Char) (i : Nat) (h : cs.drop (i + 1) = []) :
    idStage cs i = (none, i) := by
  simp [idStage, charAt_none_of_drop h]

theorem idStage_stopchar (cs : List Char) (i : Nat) (c : Char) (tail : List Char)
    (hdrop : cs.drop (i + 1) = c :: tail) (hc : jsCharNumVal c = none) :
    idStage cs i = (none, i) := by
  simp [idStage, charAt_some_of_drop hdrop, hc]

theorem idStage_digits_stop (cs : List Char) (i : Nat) (ds : List Char) (c : Char)
    (tail : List Char) (hne : ds ≠ []) (hds : ∀ x ∈ ds, x.isDigit = true)
    (hdrop : cs.drop (i + 1) = ds ++ c :: tail) (hc : jsCharNumVal c = none) :
    idStage cs i = (some (.nat (charsToNat ds)), i + ds.length) := by
  rcases hq : ds with _ | ⟨d, ds'⟩
  · exact absurd hq hne
  · subst hq
    have hd : d.isDigit = true := hds d (List.mem_cons_self d ds')
    have hca : charAt cs (i + 1) = some d := charAt_some_of_drop (by rw [hdrop]; rfl)
    have hflen : (d :: ds' : List Char).length < cs.length + 1 := by
      have h1 : (cs.drop (i + 1)).length = (d :: ds').length + tail.length + 1 := by
        rw [hdrop]; simp [List.length_append]; omega
      rw [List.length_drop] at h1
      omega
    have hscan := idScan_stop (d :: ds') cs tail c i (cs.length + 1)
      (fun x hx => jsCharNumVal_isSome_of_digit (hds x hx)) hflen hdrop hc
    simp [idStage, hca, jsCharNumVal_isSome_of_digit hd, hscan,
      jsStrToNumber_digits (d :: ds') hne hds]

theorem idStage_digits_end (cs : List Char) (i : Nat) (ds : List Char)
    (hne : ds ≠ []) (hds : ∀ x ∈ ds, x.isDigit = true)
    (hdrop : cs.drop (i + 1) = ds) :
    idStage cs i = (some (.nat (charsToNat ds)), i + ds.length + 1) := by
  rcases hq : ds with _ | ⟨d, ds'⟩
  · exact absurd hq hne
  · subst hq
    have hd : d.isDigit = true := hds d (List.mem_cons_self d ds')
    have hca : charAt cs (i + 1) = some d := charAt_some_of_drop (by rw [hdrop])
    have hflen : (d :: ds' : List Char).length < cs.length + 1 := by
      have h1 : (cs.drop (i + 1)).length = (d :: ds').length := by rw [hdrop]
      rw [List.length_drop] at h1
      omega
    have hscan := idScan_to_end (d :: ds') cs i (cs.length + 1)
      (fun x hx => jsCharNumVal_isSome_of_digit (hds x hx)) hflen hdrop
    simp [idStage, hca, jsCharNumVal_isSome_of_digit hd, hscan,
      jsStrToNumber_digits (d :: ds') hne hds]

theorem payloadStage_empty (cs : List Char) (tv : Nat) (nsp : List Char)
    (idv : Option JsNumber) (i : Nat) (h : cs.drop (i + 1) = []) :
    payloadStage cs tv nsp idv i = { type := tv, nsp := some nsp, id := idv } := by
  simp [payloadStage, charAt_none_of_drop h]

theorem payloadStage_rest (cs : List Char) (tv : Nat) (nsp : List Char)
    (idv : Option JsNumber) (i : Nat) (c : Char) (pl : List Char)
    (hdrop : cs.drop (i + 1) = c :: pl) :
    payloadStage cs tv nsp idv i =
      match tryParse (c :: pl) with
      | none => buildError "invalid payload".data
      | some v =>
        if jsonIsFalse v then buildError "invalid payload".data
        else if tv = ERROR ∨ jsonIsArr v then
          { type := tv, nsp := some nsp, id := idv, data := some v }
        else buildError "invalid payload".data := by
  simp [payloadStage, charAt_some_of_drop hdrop, hdrop, Decoder._tryParse]

theorem decodePacket_stages (cs : List Char) (tv : Nat)
    (h : typeStage cs = .nat tv) (htv : tv ≤ 4) :
    Decoder._decodePacket cs =
      payloadStage cs tv (nsStage cs).1 (idStage cs (nsStage cs).2).1
        (idStage cs (nsStage cs).2).2 := by
  obtain ⟨s5, hty⟩ := types_get_lt htv
  simp [Decoder._decodePacket, h, hty]

end Decoder

/-! ### Decoding a well-formed frame -/

/-- Characterization of `Decoder._decodePacket` on frames of the shape the
encoder produces: a type digit 0-4, an optional namespace segment (slash-led,
comma-free, comma-terminated), an optional non-empty run of decimal id
digits, and a payload whose first character is neither a digit, whitespace,
nor a slash. -/
theorem decode_skeleton (tv : Nat) (htv : tv ≤ 4)
    (nspSeg idSeg : Option (List Char)) (pl : List Char)
    (hns : ∀ m, nspSeg = some m → m.head? = some '/' ∧ ',' ∉ m)
    (hid : ∀ ds, idSeg = some ds → ds ≠ [] ∧ ∀ c ∈ ds, c.isDigit = true)
    (hpl : ∀ c, pl.head? = some c → jsCharNumVal c = none ∧ c ≠ '/') :
    Decoder._decodePacket
      (Nat.digitChar tv ::
        (nspSeg.elim [] (fun m => m ++ [',']) ++
          idSeg.elim [] (fun ds => ds) ++ pl)) =
      payloadResult tv
        { type := tv,
          nsp := some (nspSeg.elim "/".data (fun m => m)),
          id := idSeg.elim none (fun ds => some (JsNumber.nat (charsToNat ds))) }
        pl := by
  rcases nspSeg with _ | m
  · rcases idSeg with _ | ds
    · -- no namespace, no id
      simp only [Option.elim, List.nil_append]
      have htype := Decoder.typeStage_cons_digit (show tv < 10 by omega) pl
      rw [Decoder.decodePacket_stages _ tv htype htv]
      have hns0 : Decoder.nsStage (Nat.digitChar tv :: pl) = ("/".data, 0) := by
        refine Decoder.nsStage_noslash _ (fun c hc => ?_)
        rw [charAt_eq] at hc
        simp only [List.drop_succ_cons, List.drop_zero] at hc
        exact (hpl c hc).2
      rcases pl with _ | ⟨c, pl'⟩
      · have hid0 : Decoder.idStage (Nat.digitChar tv :: ([] : List Char)) 0 = (none, 0) :=
          Decoder.idStage_eod _ 0 rfl
        have hpay := Decoder.payloadStage_empty (Nat.digitChar tv :: ([] : List Char))
          tv "/".data none 0 rfl
        simp only [hns0, hid0, hpay, payloadResult]
      · obtain ⟨hcnum, -⟩ := hpl c rfl
        have hid0 : Decoder.idStage (Nat.digitChar tv :: c :: pl') 0 = (none, 0) :=
          Decoder.idStage_stopchar _ 0 c pl' rfl hcnum
        have hpay := Decoder.payloadStage_rest (Nat.digitChar tv :: c :: pl')
          tv "/".data none 0 c pl' rfl
        simp only [hns0, hid0, hpay, payloadResult]
    · -- no namespace, id digits
      obtain ⟨hdne, hdig⟩ := hid ds rfl
      rcases ds with _ | ⟨d, ds'⟩
      · exact absurd rfl hdne
      · simp only [Option.elim, List.nil_append]
        have htype := Decoder.typeStage_cons_digit (show tv < 10 by omega) ((d :: ds') ++ pl)
        rw [Decoder.decodePacket_stages _ tv htype htv]
        have hns0 : Decoder.nsStage (Nat.digitChar tv :: ((d :: ds') ++ pl)) =
            ("/".data, 0) := by
          refine Decoder.nsStage_noslash _ (fun c hc => ?_)
          rw [charAt_eq] at hc
          simp only [List.drop_succ_cons, List.drop_zero] at hc
          simp only [List.cons_append, List.head?_cons, Option.some.injEq] at hc
          exact hc ▸ digit_ne_slash (hdig d (List.mem_cons_self d ds'))
        rcases pl with _ | ⟨c, pl'⟩
        · simp only [List.append_nil]
          have hid1 : Decoder.idStage (Nat.digitChar tv :: (d :: ds')) 0 =
              (some (JsNumber.nat (charsToNat (d :: ds'))), 0 + (d :: ds').length + 1) :=
            Decoder.idStage_digits_end _ 0 (d :: ds') hdne hdig rfl
          have hpay := Decoder.payloadStage_empty (Nat.digitChar tv :: (d :: ds'))
            tv "/".data (some (JsNumber.nat (charsToNat (d :: ds'))))
            (0 + (d :: ds').length + 1)
            (List.drop_eq_nil_of_le (by simp <;> omega))
          have hns0' : Decoder.nsStage (Nat.digitChar tv :: (d :: ds')) = ("/".data, 0) := by
            simpa using hns0
          simp only [hns0', hid1, hpay, payloadResult]
        · obtain ⟨hcnum, -⟩ := hpl c rfl
          have hid1 : Decoder.idStage (Nat.digitChar tv :: ((d :: ds') ++ c :: pl')) 0 =
              (some (JsNumber.nat (charsToNat (d :: ds'))), 0 + (d :: ds').length) :=
            Decoder.idStage_digits_stop _ 0 (d :: ds') c pl' hdne hdig rfl hcnum
          have hdroppl : (Nat.digitChar tv :: ((d :: ds') ++ c :: pl')).drop
              (0 + (d :: ds').length + 1) = c :: pl' := by
            rw [show (Nat.digitChar tv :: ((d :: ds') ++ c :: pl')) =
              (Nat.digitChar tv :: d :: ds') ++ (c :: pl') from rfl]
            exact List.drop_left' (by simp <;> omega)
          have hpay := Decoder.payloadStage_rest (Nat.digitChar tv :: ((d :: ds') ++ c :: pl'))
            tv "/".data (some (JsNumber.nat (charsToNat (d :: ds'))))
            (0 + (d :: ds').length) c pl' hdroppl
          simp only [hns0, hid1, hpay, payloadResult]
  · -- namespace segment present
    obtain ⟨hmh, hmc⟩ := hns m rfl
    rcases m with _ | ⟨m0, m'⟩
    · exact absurd hmh (by simp)
    · have hm0 : m0 = '/' := by simpa using hmh
      subst hm0
      have hmc' : ',' ∉ m' := fun h => hmc (List.mem_cons_of_mem _ h)
      rcases idSeg with _ | ds
      · -- namespace, no id
        simp only [Option.elim, List.nil_append, List.append_nil]
        have htype := Decoder.typeStage_cons_digit (show tv < 10 by omega)
          ((('/' :: m') ++ [',']) ++ pl)
        rw [Decoder.decodePacket_stages _ tv htype htv]
        have hnss : Decoder.nsStage (Nat.digitChar tv :: ((('/' :: m') ++ [',']) ++ pl)) =
            ('/' :: m', m'.length + 2) := by
          refine Decoder.nsStage_slash _ m' pl hmc' ?_
          simp [List.append_assoc]
        rcases pl with _ | ⟨c, pl'⟩
        · have hid0 : Decoder.idStage
              (Nat.digitChar tv :: ((('/' :: m') ++ [',']) ++ ([] : List Char)))
              (m'.length + 2) = (none, m'.length + 2) :=
            Decoder.idStage_eod _ _ (List.drop_eq_nil_of_le (by simp <;> omega))
          have hpay := Decoder.payloadStage_empty
            (Nat.digitChar tv :: ((('/' :: m') ++ [',']) ++ ([] : List Char)))
            tv ('/' :: m') none (m'.length + 2)
            (List.drop_eq_nil_of_le (by simp <;> omega))
          simp only [hnss, hid0, hpay, payloadResult]
        · obtain ⟨hcnum, -⟩ := hpl c rfl
          have hdroppl : (Nat.digitChar tv :: ((('/' :: m') ++ [',']) ++ (c :: pl'))).drop
              (m'.length + 2 + 1) = c :: pl' := by
            rw [show (Nat.digitChar tv :: ((('/' :: m') ++ [',']) ++ (c :: pl'))) =
              (Nat.digitChar tv :: (('/' :: m') ++ [','])) ++ (c :: pl') from rfl]
            exact List.drop_left' (by simp <;> omega)
          have hid0 : Decoder.idStage
              (Nat.digitChar tv :: ((('/' :: m') ++ [',']) ++ (c :: pl')))
              (m'.length + 2) = (none, m'.length + 2) :=
            Decoder.idStage_stopchar _ _ c pl' hdroppl hcnum
          have hpay := Decoder.payloadStage_rest
            (Nat.digitChar tv :: ((('/' :: m') ++ [',']) ++ (c :: pl')))
            tv ('/' :: m') none (m'.length + 2) c pl' hdroppl
          simp only [hnss, hid0, hpay, payloadResult]
      · -- namespace and id digits
        obtain ⟨hdne, hdig⟩ := hid ds rfl
        rcases ds with _ | ⟨d, ds'⟩
        · exact absurd rfl hdne
        · simp only [Option.elim]
          have htype := Decoder.typeStage_cons_digit (show tv < 10 by omega)
            ((('/' :: m') ++ [',']) ++ (d :: ds') ++ pl)
          rw [Decoder.decodePacket_stages _ tv htype htv]
          have hnss : Decoder.nsStage
              (Nat.digitChar tv :: ((('/' :: m') ++ [',']) ++ (d :: ds') ++ pl)) =
              ('/' :: m', m'.length + 2) := by
            refine Decoder.nsStage_slash _ m' ((d :: ds') ++ pl) hmc' ?_
            simp [List.append_assoc]
          have hdropid : (Nat.digitChar tv ::
              ((('/' :: m') ++ [',']) ++ (d :: ds') ++ pl)).drop
              (m'.length + 2 + 1) = (d :: ds') ++ pl := by
            rw [show (Nat.digitChar tv :: ((('/' :: m') ++ [',']) ++ (d :: ds') ++ pl)) =
              (Nat.digitChar tv :: (('/' :: m') ++ [','])) ++ ((d :: ds') ++ pl) from by
                simp [List.append_assoc]]
            exact List.drop_left' (by simp <;> omega)
          rcases pl with _ | ⟨c, pl'⟩
          · have hid1 : Decoder.idStage
                (Nat.digitChar tv :: ((('/' :: m') ++ [',']) ++ (d :: ds') ++ ([] : List Char)))
                (m'.length + 2) =
                (some (JsNumber.nat (charsToNat (d :: ds'))),
                  m'.length + 2 + (d :: ds').length + 1) :=
              Decoder.idStage_digits_end _ _ (d :: ds') hdne hdig (by simpa using hdropid)
            have hpay := Decoder.payloadStage_empty
              (Nat.digitChar tv :: ((('/' :: m') ++ [',']) ++ (d :: ds') ++ ([] : List Char)))
              tv ('/' :: m') (some (JsNumber.nat (charsToNat (d :: ds'))))
              (m'.length + 2 + (d :: ds').length + 1)
              (List.drop_eq_nil_of_le (by simp <;> omega))
            simp only [hnss, hid1, hpay, payloadResult]
          · obtain ⟨hcnum, -⟩ := hpl c rfl
            have hid1 : Decoder.idStage
                (Nat.digitChar tv :: ((('/' :: m') ++ [',']) ++ (d :: ds') ++ (c :: pl')))
                (m'.length + 2) =
                (some (JsNumber.nat (charsToNat (d :: ds'))),
                  m'.length + 2 + (d :: ds').length) :=
              Decoder.idStage_digits_stop _ _ (d :: ds') c pl' hdne hdig
                (by simpa [List.append_assoc] using hdropid) hcnum
            have hdroppl : (Nat.digitChar tv ::
                ((('/' :: m') ++ [',']) ++ (d :: ds') ++ (c :: pl'))).drop
                (m'.length + 2 + (d :: ds').length + 1) = c :: pl' := by
              rw [show (Nat.digitChar tv ::
                ((('/' :: m') ++ [',']) ++ (d :: ds') ++ (c :: pl'))) =
                (Nat.digitChar tv :: ((('/' :: m') ++ [',']) ++ (d :: ds'))) ++ (c :: pl')
                  from by simp [List.append_assoc]]
              exact List.drop_left' (by simp <;> omega)
            have hpay := Decoder.payloadStage_rest
              (Nat.digitChar tv :: ((('/' :: m') ++ [',']) ++ (d :: ds') ++ (c :: pl')))
              tv ('/' :: m') (some (JsNumber.nat (charsToNat (d :: ds'))))
              (m'.length + 2 + (d :: ds').length) c pl' hdroppl
            simp only [hnss, hid1, hpay, payloadResult]

/-! ### The shape of an encoded frame -/

theorem natToChars_lt10 {n : Nat} (h : n < 10) : natToChars n = [Nat.digitChar n] := by
  rw [natToChars_eq, natDigits]
  simp [h]

theorem encodePacket_shape (p : Packet) (ht : p.type < 10)
    (hd : p.data = none ∨ ∃ v, p.data = some (.val v) ∧ v ≠ Json.null) :
    Encoder._encodePacket p =
      Nat.digitChar p.type ::
        ((match p.nsp with
          | some ns => if ns ≠ [] ∧ ns ≠ "/".data then ns ++ [','] else []
          | none => []) ++
         (match p.id with | some n => natToChars n | none => []) ++
         (match p.data with | some (.val v) => jsonToChars v | _ => [])) := by
  unfold Encoder._encodePacket
  rcases hd with hd | ⟨v, hd, hvn⟩
  · rw [hd]
    simp [natToChars_lt10 ht, List.append_assoc]
  · rw [hd]
    cases v with
    | null => exact absurd rfl hvn
    | bool b =>
      simp [Encoder._tryStringify, natToChars_lt10 ht, List.append_assoc]
    | num n =>
      simp [Encoder._tryStringify, natToChars_lt10 ht, List.append_assoc]
    | str s =>
      simp [Encoder._tryStringify, natToChars_lt10 ht, List.append_assoc]
    | arr xs =>
      simp [Encoder._tryStringify, natToChars_lt10 ht, List.append_assoc]
    | obj fs =>
      simp [Encoder._tryStringify, natToChars_lt10 ht, List.append_assoc]

theorem validData_not_null {t : Nat} {v : Json}
    (hd : validData t (some (.val v))) : v ≠ Json.null := by
  intro hv
  subst hv
  rcases hd with h | ⟨-, h⟩
  · simp [jsonIsArr] at h
  · simp [errDataOk] at h

theorem jsonIsFalse_of_ok {v : Json}
    (h : jsonIsArr v = true ∨ errDataOk v = true) : jsonIsFalse v = false := by
  cases v with
  | bool b =>
    cases b with
    | false => rcases h with h | h <;> simp [jsonIsArr, errDataOk] at h
    | true => rfl
  | null => rfl
  | num n => rfl
  | str s => rfl
  | arr xs => rfl
  | obj fs => rfl

theorem jsonToChars_head_ok {v : Json}
    (h : jsonIsArr v = true ∨ errDataOk v = true) :
    ∀ c, (jsonToChars v).head? = some c → jsCharNumVal c = none ∧ c ≠ '/' := by
  cases v with
  | null => rcases h with h | h <;> simp [jsonIsArr, errDataOk] at h
  | bool b =>
    cases b with
    | false => rcases h with h | h <;> simp [jsonIsArr, errDataOk] at h
    | true =>
      intro c hc
      simp only [jsonToChars, List.head?_cons, Option.some.injEq] at hc
      subst hc
      exact ⟨by decide, by decide⟩
  | num n =>
    cases n with
    | ofNat m => rcases h with h | h <;> simp [jsonIsArr, errDataOk] at h
    | negSucc m =>
      intro c hc
      simp only [jsonToChars, intToChars, List.head?_cons, Option.some.injEq] at hc
      subst hc
      exact ⟨by decide, by decide⟩
  | str s =>
    intro c hc
    simp only [jsonToChars, quoteChars, List.head?_cons, Option.some.injEq] at hc
    subst hc
    exact ⟨by decide, by decide⟩
  | arr xs =>
    intro c hc
    simp only [jsonToChars, List.head?_cons, Option.some.injEq] at hc
    subst hc
    exact ⟨by decide, by decide⟩
  | obj fs =>
    intro c hc
    simp only [jsonToChars, List.head?_cons, Option.some.injEq] at hc
    subst hc
    exact ⟨by decide, by decide⟩

theorem C1_core (tv : Nat) (ht : tv ≤ 4) (nspSeg idSeg : Option (List Char))
    (dv : Option Json)
    (hns : ∀ m, nspSeg = some m → m.head? = some '/' ∧ ',' ∉ m)
    (hid : ∀ ds, idSeg = some ds → ds ≠ [] ∧ ∀ c ∈ ds, c.isDigit = true)
    (hdv : ∀ v, dv = some v → jsonIsArr v = true ∨ (tv = ERROR ∧ errDataOk v = true)) :
    Decoder._decodePacket
      (Nat.digitChar tv ::
        (nspSeg.elim [] (fun m => m ++ [',']) ++ idSeg.elim [] (fun ds => ds) ++
          dv.elim [] jsonToChars)) =
      { type := tv, nsp := some (nspSeg.elim "/".data (fun m => m)),
        id := idSeg.elim none (fun ds => some (JsNumber.nat (charsToNat ds))),
        data := dv } := by
  rcases dv with _ | v
  · have h := decode_skeleton tv ht nspSeg idSeg [] hns hid (by simp)
    simpa using h
  · have hv := hdv v rfl
    have hv' : jsonIsArr v = true ∨ errDataOk v = true := by
      rcases hv with h | ⟨-, h⟩
      · exact Or.inl h
      · exact Or.inr h
    obtain ⟨c, t, hct, -, -, -⟩ := jsonToChars_head v
    have h := decode_skeleton tv ht nspSeg idSeg (jsonToChars v) hns hid
      (fun c hc => jsonToChars_head_ok hv' c hc)
    rw [hct] at h
    have hparse : tryParse (c :: t) = some v := by
      rw [← hct]; exact tryParse_jsonToChars v
    have hcond : tv = ERROR ∨ jsonIsArr v = true := by
      rcases hv with h1 | ⟨h1, -⟩
      · exact Or.inr h1
      · exact Or.inl h1
    simp only [Option.elim_some]
    rw [hct, h]
    simp only [payloadResult, hparse, jsonIsFalse_of_ok hv']
    simp [hcond]

/-- C1 (amended): a packet with type 0-4, an absent or slash-led comma-free
namespace, an id that is absent or a non-negative safe integer (below
`2 ^ 53`, the range in which a JavaScript number is exact and `'' + id`
prints plain decimal digits that `Number` reads back unchanged), and data
that is absent, an array, or — for `ERROR` — any JSON value other than
`null`, `false`, or a non-negative number, round-trips through encode and
decode in every present field. -/
theorem C1_round_trip (p : Packet) (ht : p.type ≤ 4)
    (hn : validNsp p.nsp) (hd : validData p.type p.data)
    (hsafe : ∀ n, p.id = some n → n < 2 ^ 53) :
    (Decoder._decodePacket (Encoder._encodePacket p)).type = p.type ∧
    (Decoder._decodePacket (Encoder._encodePacket p)).nsp =
      some (p.nsp.getD "/".data) ∧
    (Decoder._decodePacket (Encoder._encodePacket p)).id = p.id.map JsNumber.nat ∧
    (Decoder._decodePacket (Encoder._encodePacket p)).data =
      (match p.data with | some (.val v) => some v | _ => none) := by
  have hd0 : p.data = none ∨ ∃ v, p.data = some (.val v) ∧ v ≠ Json.null := by
    rcases hdata : p.data with _ | d
    · exact Or.inl rfl
    · rcases d with v | _
      · exact Or.inr ⟨v, rfl, validData_not_null (hdata ▸ hd)⟩
      · rw [hdata] at hd
        exact absurd hd (by simp [validData])
  have hidc : (match p.id with | some n => natToChars n | none => ([] : List Char)) =
      (p.id.map natToChars).elim [] (fun ds => ds) := by
    cases p.id <;> rfl
  have hdc : (match p.data with | some (.val v) => jsonToChars v | _ => ([] : List Char)) =
      (match p.data with
        | some (.val v) => some v
        | _ => (none : Option Json)).elim [] jsonToChars := by
    rcases p.data with _ | d
    · rfl
    · rcases d with v | _ <;> rfl
  have hid : ∀ ds, p.id.map natToChars = some ds →
      ds ≠ [] ∧ ∀ c ∈ ds, c.isDigit = true := by
    intro ds hds
    rcases hpid : p.id with _ | n
    · rw [hpid] at hds; simp at hds
    · rw [hpid] at hds
      simp only [Option.map_some', Option.some.injEq] at hds
      subst hds
      refine ⟨by rw [natToChars_eq]; exact natDigits_ne_nil n, ?_⟩
      rw [natToChars_eq]
      exact natDigits_all_digit n
  have hdv : ∀ v, (match p.data with
      | some (.val v) => some v
      | _ => (none : Option Json)) = some v →
      jsonIsArr v = true ∨ (p.type = ERROR ∧ errDataOk v = true) := by
    intro v hv
    rcases hdata : p.data with _ | d
    · rw [hdata] at hv; simp at hv
    · rcases d with w | _
      · rw [hdata] at hv
        simp only [Option.some.injEq] at hv
        subst hv
        rw [hdata] at hd
        exact hd
      · rw [hdata] at hv; simp at hv
  have hidres : (p.id.map natToChars).elim none
      (fun ds => some (JsNumber.nat (charsToNat ds))) = p.id.map JsNumber.nat := by
    cases p.id <;> simp [charsToNat_natToChars]
  rw [encodePacket_shape p (by omega) hd0, hidc, hdc]
  rcases hnsp : p.nsp with _ | x
  · simp only [hnsp]
    have hcore := C1_core p.type ht none (p.id.map natToChars)
      (match p.data with | some (.val v) => some v | _ => none)
      (by intro m hm; simp at hm) hid hdv
    simp only [Option.elim_none] at hcore ⊢
    rw [hcore]
    exact ⟨rfl, rfl, hidres, rfl⟩
  · have hx := hnsp ▸ hn
    obtain ⟨hxh, hxc⟩ : x.head? = some '/' ∧ ',' ∉ x := hx
    have hxe : x ≠ [] := by
      intro hxe
      rw [hxe] at hxh
      exact absurd hxh (by simp)
    by_cases hxa : x = "/".data
    · have hguard : (if x ≠ [] ∧ x ≠ "/".data then x ++ [','] else []) = [] := by
        simp [hxa]
      simp only [hnsp]
      rw [hguard]
      have hcore := C1_core p.type ht none (p.id.map natToChars)
        (match p.data with | some (.val v) => some v | _ => none)
        (by intro m hm; simp at hm) hid hdv
      simp only [Option.elim_none] at hcore ⊢
      rw [hcore]
      refine ⟨rfl, ?_, hidres, rfl⟩
      rw [hxa]
      rfl
    · have hguard : (if x ≠ [] ∧ x ≠ "/".data then x ++ [','] else []) = x ++ [','] := by
        simp [hxe, hxa]
      simp only [hnsp]
      rw [hguard]
      have hcore := C1_core p.type ht (some x) (p.id.map natToChars)
        (match p.data with | some (.val v) => some v | _ => none)
        (by intro m hm; simp only [Option.some.injEq] at hm; exact hm ▸ ⟨hxh, hxc⟩)
        hid hdv
      simp only [Option.elim_some] at hcore ⊢
      rw [hcore]
      exact ⟨rfl, rfl, hidres, rfl⟩

/-! ### Further decoder facts -/

theorem types_get_le {tv : Nat} {s : List Char} (h : types[tv]? = some s) : tv ≤ 4 := by
  obtain ⟨hlt, -⟩ := List.getElem?_eq_some.mp h
  simp [types] at hlt
  omega

/-- The payload stage returns either the invalid-payload error packet or a
normal packet with exactly the supplied type, namespace and id. -/
theorem payloadStage_cases (cs : List Char) (tv : Nat) (nsp : List Char)
    (idv : Option JsNumber) (i : Nat) :
    Decoder.payloadStage cs tv nsp idv i = buildError "invalid payload".data ∨
    ∃ dataOpt, Decoder.payloadStage cs tv nsp idv i =
      { type := tv, nsp := some nsp, id := idv, data := dataOpt } := by
  unfold Decoder.payloadStage
  rcases hca : charAt cs (i + 1) with _ | c
  · exact Or.inr ⟨none, rfl⟩
  · rcases htp : Decoder._tryParse (cs.drop (i + 1)) with _ | v
    · exact Or.inl rfl
    · rcases hf : jsonIsFalse v with _ | _
      · rcases hcond : decide (tv = ERROR ∨ jsonIsArr v = true) with _ | _
        · refine Or.inl ?_
          have hc' : ¬(tv = ERROR ∨ jsonIsArr v = true) := of_decide_eq_false hcond
          simp [hf, hc']
        · refine Or.inr ⟨some v, ?_⟩
          have hc' : tv = ERROR ∨ jsonIsArr v = true := of_decide_eq_true hcond
          simp [hf, hc']
      · exact Or.inl (by simp [hf])

/-- Generic form of the id-run lemma: the id stage consumes a maximal run
of characters whose `ToNumber` value is not `NaN` (digits and whitespace),
ending at the end of the frame. -/
theorem idStage_run_end (cs : List Char) (i : Nat) (run : List Char)
    (hne : run ≠ []) (hrun : ∀ x ∈ run, (jsCharNumVal x).isSome = true)
    (hdrop : cs.drop (i + 1) = run) :
    Decoder.idStage cs i = (some (jsStrToNumber run), i + run.length + 1) := by
  rcases hq : run with _ | ⟨d, ds'⟩
  · exact absurd hq hne
  · subst hq
    have hd : (jsCharNumVal d).isSome = true := hrun d (List.mem_cons_self d ds')
    have hca : charAt cs (i + 1) = some d := charAt_some_of_drop (by rw [hdrop])
    have hflen : (d :: ds' : List Char).length < cs.length + 1 := by
      have h1 : (cs.drop (i + 1)).length = (d :: ds').length := by rw [hdrop]
      rw [List.length_drop] at h1
      omega
    have hscan := idScan_to_end (d :: ds') cs i (cs.length + 1) hrun hflen hdrop
    simp [Decoder.idStage, hca, hd, hscan]

/-- Generic id-run lemma, ending at the first character whose `ToNumber`
value is `NaN`. -/
theorem idStage_run_stop (cs : List Char) (i : Nat) (run : List Char) (c : Char)
    (tail : List Char) (hne : run ≠ [])
    (hrun : ∀ x ∈ run, (jsCharNumVal x).isSome = true)
    (hdrop : cs.drop (i + 1) = run ++ c :: tail) (hc : jsCharNumVal c = none) :
    Decoder.idStage cs i = (some (jsStrToNumber run), i + run.length) := by
  rcases hq : run with _ | ⟨d, ds'⟩
  · exact absurd hq hne
  · subst hq
    have hd : (jsCharNumVal d).isSome = true := hrun d (List.mem_cons_self d ds')
    have hca : charAt cs (i + 1) = some d := charAt_some_of_drop (by rw [hdrop]; rfl)
    have hflen : (d :: ds' : List Char).length < cs.length + 1 := by
      have h1 : (cs.drop (i + 1)).length = (d :: ds').length + tail.length + 1 := by
        rw [hdrop]; simp [List.length_append]; omega
      rw [List.length_drop] at h1
      omega
    have hscan := idScan_stop (d :: ds') cs tail c i (cs.length + 1) hrun hflen hdrop hc
    simp [Decoder.idStage, hca, hd, hscan]

theorem numval_isSome_ne_slash {c : Char} (h : (jsCharNumVal c).isSome = true) :
    c ≠ '/' := by
  intro he
  rw [he] at h
  exact absurd h (by decide)

/-! ### Claim C10: decoding the empty frame -/

/-- C10: decoding the empty string produces a normal packet with type
`CONNECT` (0), namespace `"/"`, no id, and no data — not an error packet —
because `Number('')` coerces the missing leading character to `0`. -/
theorem C10_empty_frame :
    Decoder._decodePacket "".data =
      { type := CONNECT, nsp := some "/".data, id := none, data := none } ∧
    (Decoder._decodePacket "".data).type ≠ ERROR := by
  exact ⟨rfl, by decide⟩

/-! ### Claim C9: non-string input to add -/

/-- C9: `Decoder.add` applied to any non-string value throws
`Unknown type: <value>` synchronously (the `Except.error` result), producing
no `decoded` emission, while a string argument is decoded and emitted
(`Except.ok`). -/
theorem C9_add_input_type :
    (∀ shown, Decoder.add (.other shown) =
      .error ("Unknown type: ".data ++ shown)) ∧
    (∀ s, Decoder.add (.str s) = .ok (Decoder._decodePacket s)) :=
  ⟨fun _ => rfl, fun _ => rfl⟩

/-! ### Claim C4: encode never fails visibly -/

/-- C4: when serialization of `packet.data` fails, `encode` does not raise;
it delivers exactly one frame, the fixed fallback `ERROR_PACKET`, which is
the type digit `4` followed by the literal JSON string `"encode error"`. -/
theorem C4_encode_fallback (p : Packet) (d : EncData) (hd : p.data = some d)
    (hf : Encoder._tryStringify d = none) :
    Encoder.encode p = [ERROR_PACKET] ∧
    ERROR_PACKET = "4\"encode error\"".data := by
  refine ⟨?_, rfl⟩
  rcases d with v | _
  · exact absurd hf (by simp [Encoder._tryStringify])
  · unfold Encoder.encode Encoder._encodePacket
    rw [hd]
    rfl

/-- Witness for C4 at a concrete unserializable packet. -/
theorem C4_encode_fallback_witness :
    ({ type := 2, data := some EncData.unserializable } : Packet).data =
      some EncData.unserializable ∧
    Encoder._tryStringify EncData.unserializable = none ∧
    Encoder.encode { type := 2, data := some EncData.unserializable } =
      [ERROR_PACKET] :=
  ⟨rfl, rfl,
    (C4_encode_fallback { type := 2, data := some EncData.unserializable }
      EncData.unserializable rfl rfl).1⟩

/-! ### Claim C5: decoded-type invariant -/

/-- C5: every packet produced by decoding has type in 0-4; a frame whose
leading character coerces to `NaN` or to a digit outside the type table is
never returned as a normal packet but decodes to the synthesized
`buildError` packet, as does a frame whose payload parses to a value of
invalid shape (the literal `false`, or a non-array for a non-`ERROR` type)
or fails to parse at all; and every `buildError` packet has type `ERROR`
and carries the diagnostic `parser error: ` + message as its data. -/
theorem C5_decoded_type_invariant (s : List Char) :
    (Decoder._decodePacket s).type ≤ 4 ∧
    (Decoder.typeStage s = .nan →
      Decoder._decodePacket s = buildError "unknown packet type NaN".data) ∧
    (∀ tv, Decoder.typeStage s = .nat tv → types[tv]? = none →
      Decoder._decodePacket s =
        buildError ("unknown packet type ".data ++ natToChars tv)) ∧
    (∀ tv, Decoder.typeStage s = .nat tv → tv ≤ 4 →
      ∀ v, Decoder._tryParse
          (s.drop ((Decoder.idStage s (Decoder.nsStage s).2).2 + 1)) = some v →
        jsonIsFalse v = true ∨ ¬(tv = ERROR ∨ jsonIsArr v = true) →
        Decoder._decodePacket s = buildError "invalid payload".data) ∧
    (∀ tv, Decoder.typeStage s = .nat tv → tv ≤ 4 →
      ∀ c, charAt s ((Decoder.idStage s (Decoder.nsStage s).2).2 + 1) = some c →
        Decoder._tryParse
          (s.drop ((Decoder.idStage s (Decoder.nsStage s).2).2 + 1)) = none →
        Decoder._decodePacket s = buildError "invalid payload".data) ∧
    (∀ m, (buildError m).type = ERROR ∧
      (buildError m).data = some (.str ("parser error: ".data ++ m))) := by
  refine ⟨?_, ?_, ?_, ?_, ?_, fun m => ⟨rfl, rfl⟩⟩
  · rcases hts : Decoder.typeStage s with _ | tv
    · have hdec : Decoder._decodePacket s =
          buildError "unknown packet type NaN".data := by
        simp [Decoder._decodePacket, hts]
      rw [hdec]
      simp [buildError, ERROR]
    · rcases hty : types[tv]? with _ | name
      · have hdec : Decoder._decodePacket s =
            buildError ("unknown packet type ".data ++ natToChars tv) := by
          simp [Decoder._decodePacket, hts, hty]
        rw [hdec]
        simp [buildError, ERROR]
      · have htv : tv ≤ 4 := types_get_le hty
        rw [Decoder.decodePacket_stages s tv hts htv]
        rcases payloadStage_cases s tv (Decoder.nsStage s).1
            (Decoder.idStage s (Decoder.nsStage s).2).1
            (Decoder.idStage s (Decoder.nsStage s).2).2 with
          hcase | ⟨dataOpt, hcase⟩
        · rw [hcase]
          simp [buildError, ERROR]
        · rw [hcase]
          exact htv
  · intro hts
    simp [Decoder._decodePacket, hts]
  · intro tv hts hty
    simp [Decoder._decodePacket, hts, hty]
  · intro tv hts htv v hv hbad
    rw [Decoder.decodePacket_stages s tv hts htv]
    have hne : s.drop ((Decoder.idStage s (Decoder.nsStage s).2).2 + 1) ≠ [] := by
      intro he
      rw [he] at hv
      exact Option.noConfusion hv
    obtain ⟨c, t, hct⟩ : ∃ c t,
        s.drop ((Decoder.idStage s (Decoder.nsStage s).2).2 + 1) = c :: t := by
      rcases hq : s.drop ((Decoder.idStage s (Decoder.nsStage s).2).2 + 1) with
        _ | ⟨c, t⟩
      · exact absurd hq hne
      · exact ⟨c, t, rfl⟩
    have hca : charAt s ((Decoder.idStage s (Decoder.nsStage s).2).2 + 1) =
        some c := charAt_some_of_drop hct
    rcases hbad with hb | hb
    · simp [Decoder.payloadStage, hca, hv, hb]
    · by_cases hjf : jsonIsFalse v = true
      · simp [Decoder.payloadStage, hca, hv, hjf]
      · simp [Decoder.payloadStage, hca, hv, hjf, hb]
  · intro tv hts htv c hca hnone
    rw [Decoder.decodePacket_stages s tv hts htv]
    simp [Decoder.payloadStage, hca, hnone]

/-- Witness for C5: the type bound and the invalid-payload replacement at
the frame `2{}`, and the unknown-type replacements at `x` and `5`. -/
theorem C5_decoded_type_invariant_witness :
    (Decoder._decodePacket "2{}".data).type ≤ 4 ∧
    Decoder._decodePacket "x".data =
      buildError "unknown packet type NaN".data ∧
    Decoder._decodePacket "5".data =
      buildError ("unknown packet type ".data ++ natToChars 5) ∧
    Decoder._decodePacket "2{}".data =
      buildError "invalid payload".data :=
  ⟨(C5_decoded_type_invariant "2{}".data).1,
   (C5_decoded_type_invariant "x".data).2.1 rfl,
   (C5_decoded_type_invariant "5".data).2.2.1 5 rfl rfl,
   (C5_decoded_type_invariant "2{}".data).2.2.2.1 2 rfl (by decide)
     (.obj .nil) rfl (Or.inr (by decide))⟩


/-! ### Claim C1: counterexample and witness -/

/-- Counterexample to C1 as stated: the `ERROR` packet carrying the JSON
value `false` (a shape the spec allows for `ERROR`) encodes to `4false`,
whose decode is the invalid-payload error packet, not the original data. -/
theorem C1_counterexample :
    Encoder.encode
      { type := 4, nsp := some "/".data, id := none,
        data := some (.val (.bool false)) } = ["4false".data] ∧
    Decoder._decodePacket "4false".data = buildError "invalid payload".data ∧
    (Decoder._decodePacket "4false".data).data =
      some (.str ("parser error: invalid payload".data)) ∧
    some (Json.str ("parser error: invalid payload".data)) ≠
      some (Json.bool false) := by
  refine ⟨rfl, rfl, rfl, by simp⟩

/-- Witness for C1 at the packet
`2/admin,456[123]` (type `EVENT`, custom namespace, id 456, array data). -/
theorem C1_round_trip_witness :
    validNsp (some "/admin".data) ∧
    validData 2 (some (.val (.arr (.cons (.num (Int.ofNat 123)) .nil)))) ∧
    (Decoder._decodePacket (Encoder._encodePacket
      { type := 2, nsp := some "/admin".data, id := some 456,
        data := some (.val (.arr (.cons (.num (Int.ofNat 123)) .nil))) })).type
      = 2 ∧
    (Decoder._decodePacket (Encoder._encodePacket
      { type := 2, nsp := some "/admin".data, id := some 456,
        data := some (.val (.arr (.cons (.num (Int.ofNat 123)) .nil))) })).nsp
      = some "/admin".data ∧
    (Decoder._decodePacket (Encoder._encodePacket
      { type := 2, nsp := some "/admin".data, id := some 456,
        data := some (.val (.arr (.cons (.num (Int.ofNat 123)) .nil))) })).id
      = some (JsNumber.nat 456) ∧
    (Decoder._decodePacket (Encoder._encodePacket
      { type := 2, nsp := some "/admin".data, id := some 456,
        data := some (.val (.arr (.cons (.num (Int.ofNat 123)) .nil))) })).data
      = some (Json.arr (.cons (.num (Int.ofNat 123)) .nil)) := by
  have h := C1_round_trip
    { type := 2, nsp := some "/admin".data, id := some 456,
      data := some (.val (.arr (.cons (.num (Int.ofNat 123)) .nil))) }
    (by decide)
    (show "/admin".data.head? = some '/' ∧ ',' ∉ "/admin".data from
      ⟨rfl, by decide⟩)
    (Or.inl rfl)
    (by
      intro n hn
      have h456 : (456 : Nat) < 2 ^ 53 := by decide
      have hn456 : n = 456 := by simpa using hn.symm
      subst hn456
      exact h456)
  exact ⟨⟨rfl, by decide⟩, Or.inl rfl, h.1, h.2.1, h.2.2.1, h.2.2.2⟩

/-! ### Claim C2: payload shape validation -/

/-- Counterexample to C2 as stated: the payload of `4false` parses
successfully as the JSON value `false`, and the frame's type is `ERROR`,
yet the decoder rejects it with the invalid-payload error packet — the
`payload !== false` test conflates the literal `false` with a parse
failure. -/
theorem C2_counterexample :
    Decoder._tryParse "false".data = some (.bool false) ∧
    Decoder._decodePacket ('4' :: "false".data) =
      buildError "invalid payload".data ∧
    (Decoder._decodePacket ('4' :: "false".data)).data ≠
      some (.bool false) := by
  refine ⟨rfl, rfl, ?_⟩
  rw [show Decoder._decodePacket ('4' :: "false".data) =
    buildError "invalid payload".data from rfl]
  simp [buildError]

/-- C2 (amended): when the payload parses as a JSON value `v` other than the
literal `false`, the payload stage accepts exactly when the type is `ERROR`
or `v` is an array, and otherwise produces the invalid-payload error packet;
a payload parsing to the literal `false` is always rejected, because the
decoder's `payload !== false` test cannot distinguish it from a parse
failure. -/
theorem C2_payload_validation (cs : List Char) (tv : Nat) (nsp : List Char)
    (idv : Option JsNumber) (i : Nat) (c : Char) (v : Json)
    (hc : charAt cs (i + 1) = some c)
    (hv : Decoder._tryParse (cs.drop (i + 1)) = some v) :
    (jsonIsFalse v = false → (tv = ERROR ∨ jsonIsArr v = true) →
      Decoder.payloadStage cs tv nsp idv i =
        { type := tv, nsp := some nsp, id := idv, data := some v }) ∧
    (jsonIsFalse v = false → ¬(tv = ERROR ∨ jsonIsArr v = true) →
      Decoder.payloadStage cs tv nsp idv i =
        buildError "invalid payload".data) ∧
    (jsonIsFalse v = true →
      Decoder.payloadStage cs tv nsp idv i =
        buildError "invalid payload".data) := by
  refine ⟨fun hf hcond => ?_, fun hf hcond => ?_, fun hf => ?_⟩
  · simp [Decoder.payloadStage, hc, hv, hf, hcond]
  · simp [Decoder.payloadStage, hc, hv, hf, hcond]
  · simp [Decoder.payloadStage, hc, hv, hf]

/-- Witness for C2: the object payload `\x7b\x7d` is accepted for type
`ERROR` (4) and rejected for type `EVENT` (2). -/
theorem C2_payload_validation_witness :
    charAt "4\x7b\x7d".data 1 = some '\x7b' ∧
    Decoder._tryParse ("4\x7b\x7d".data.drop 1) = some (.obj .nil) ∧
    Decoder.payloadStage "4\x7b\x7d".data 4 "/".data none 0 =
      { type := 4, nsp := some "/".data, id := none,
        data := some (.obj .nil) } ∧
    Decoder.payloadStage "4\x7b\x7d".data 2 "/".data none 0 =
      buildError "invalid payload".data := by
  refine ⟨rfl, rfl, ?_, ?_⟩
  · exact (C2_payload_validation "4\x7b\x7d".data 4 "/".data none 0 '\x7b'
      (.obj .nil) rfl rfl).1 rfl (Or.inl rfl)
  · exact (C2_payload_validation "4\x7b\x7d".data 2 "/".data none 0 '\x7b'
      (.obj .nil) rfl rfl).2.1 rfl (by decide)

/-! ### Claim C3: unknown packet type -/

/-- Counterexample to C3 as stated: a frame starting with the non-digit
`' '` is not rejected — `Number(' ')` coerces to `0`, so the frame decodes
as a normal `CONNECT` packet. -/
theorem C3_counterexample :
    Char.isDigit ' ' = false ∧
    Decoder._decodePacket " ".data =
      { type := CONNECT, nsp := some "/".data, id := none, data := none } ∧
    CONNECT ≠ ERROR := by
  refine ⟨by decide, rfl, by decide⟩

/-- C3 (amended): decoding rejects a frame exactly when `Number` of its
first character is `NaN` (yielding `unknown packet type NaN`) or is a digit
5-9 outside the type table (yielding `unknown packet type <digit>`);
whitespace characters coerce to `0` and are not rejected. -/
theorem C3_unknown_type :
    (∀ c rest, jsCharNumVal c = none →
      Decoder._decodePacket (c :: rest) =
        buildError "unknown packet type NaN".data) ∧
    (∀ d rest, 5 ≤ d → d ≤ 9 →
      Decoder._decodePacket (Nat.digitChar d :: rest) =
        buildError ("unknown packet type ".data ++ natToChars d)) := by
  constructor
  · intro c rest hc
    have hts : Decoder.typeStage (c :: rest) = .nan := by
      simp [Decoder.typeStage, Decoder.charAt_cons_zero, hc]
    simp [Decoder._decodePacket, hts]
  · intro d rest h5 h9
    have hts : Decoder.typeStage (Nat.digitChar d :: rest) = .nat d :=
      Decoder.typeStage_cons_digit (by omega) rest
    have hty : types[d]? = none := by
      apply List.getElem?_eq_none
      have hl : types.length = 5 := rfl
      omega
    simp [Decoder._decodePacket, hts, hty]

/-- Witness for C3 at the frames `x` (NaN coercion) and `5` (digit outside
the table). -/
theorem C3_unknown_type_witness :
    Decoder._decodePacket "x".data =
      buildError "unknown packet type NaN".data ∧
    Decoder._decodePacket "5".data =
      buildError ("unknown packet type ".data ++ natToChars 5) :=
  ⟨C3_unknown_type.1 'x' [] rfl, C3_unknown_type.2 5 [] (by decide) (by decide)⟩

/-! ### Claim C6: the id scan -/

/-- Counterexample to C6 as stated: after type `2` the next character `' '`
is not a decimal digit, yet `2 ` decodes with an id (`Number(' ') == ' '`
holds in JavaScript, and `Number(' ')` is `0`). -/
theorem C6_counterexample :
    Char.isDigit ' ' = false ∧
    Decoder._decodePacket "2 ".data =
      { type := EVENT, nsp := some "/".data, id := some (.nat 0),
        data := none } ∧
    some (JsNumber.nat 0) ≠ (none : Option JsNumber) := by
  refine ⟨by decide, rfl, by decide⟩

/-- C6 (amended): the id stage accumulates an id exactly when the next
character exists and its `Number` coercion is not `NaN` — decimal digits
and also whitespace; it then collects the maximal run of such characters,
stopping at the first `NaN` character (stepping back one position) or at
end of input.  When the run is all decimal digits and its value is a safe
integer (below `2 ^ 53`, where the engine's float64 `Number` conversion is
exact), the id is the exact decimal value of the run; for longer digit
runs or whitespace-bearing runs only the presence of an id is asserted,
since `packet.id = Number(packet.id)` rounds to the nearest double. -/
theorem C6_id_scan :
    (∀ cs i, cs.drop (i + 1) = [] → Decoder.idStage cs i = (none, i)) ∧
    (∀ cs i c tail, cs.drop (i + 1) = c :: tail → jsCharNumVal c = none →
      Decoder.idStage cs i = (none, i)) ∧
    (∀ cs i run, run ≠ [] → (∀ x ∈ run, (jsCharNumVal x).isSome = true) →
      cs.drop (i + 1) = run →
      ∃ idv, Decoder.idStage cs i = (some idv, i + run.length + 1)) ∧
    (∀ cs i run c tail, run ≠ [] →
      (∀ x ∈ run, (jsCharNumVal x).isSome = true) →
      cs.drop (i + 1) = run ++ c :: tail → jsCharNumVal c = none →
      ∃ idv, Decoder.idStage cs i = (some idv, i + run.length)) ∧
    (∀ cs i run, run ≠ [] → (∀ x ∈ run, x.isDigit = true) →
      charsToNat run < 2 ^ 53 → cs.drop (i + 1) = run →
      Decoder.idStage cs i =
        (some (JsNumber.nat (charsToNat run)), i + run.length + 1)) ∧
    (∀ cs i run c tail, run ≠ [] → (∀ x ∈ run, x.isDigit = true) →
      charsToNat run < 2 ^ 53 →
      cs.drop (i + 1) = run ++ c :: tail → jsCharNumVal c = none →
      Decoder.idStage cs i =
        (some (JsNumber.nat (charsToNat run)), i + run.length)) :=
  ⟨fun cs i h => Decoder.idStage_eod cs i h,
   fun cs i c tail h hc => Decoder.idStage_stopchar cs i c tail h hc,
   fun cs i run hne hrun h =>
     ⟨jsStrToNumber run, idStage_run_end cs i run hne hrun h⟩,
   fun cs i run c tail hne hrun h hc =>
     ⟨jsStrToNumber run, idStage_run_stop cs i run c tail hne hrun h hc⟩,
   fun cs i run hne hds hsafe h =>
     Decoder.idStage_digits_end cs i run hne hds h,
   fun cs i run c tail hne hds hsafe h hc =>
     Decoder.idStage_digits_stop cs i run c tail hne hds h hc⟩

/-- Witness for C6 on the frames `2` (end of input), `2[1]` (stop
character), `2 ` (whitespace run to the end), `21[1]` (run with a stop
character), `230` (safe digit run to the end) and `21[1]` again for the
exact value at a safe digit run with a stop character. -/
theorem C6_id_scan_witness :
    Decoder.idStage "2".data 0 = (none, 0) ∧
    Decoder.idStage "2[1]".data 0 = (none, 0) ∧
    (∃ idv, Decoder.idStage "2 ".data 0 = (some idv, 2)) ∧
    (∃ idv, Decoder.idStage "21[1]".data 0 = (some idv, 1)) ∧
    Decoder.idStage "230".data 0 = (some (JsNumber.nat 30), 3) ∧
    Decoder.idStage "21[1]".data 0 = (some (JsNumber.nat 1), 1) :=
  ⟨C6_id_scan.1 "2".data 0 rfl,
   C6_id_scan.2.1 "2[1]".data 0 '[' "1]".data rfl rfl,
   C6_id_scan.2.2.1 "2 ".data 0 [' '] (by decide) (by decide) rfl,
   C6_id_scan.2.2.2.1 "21[1]".data 0 ['1'] '[' "1]".data (by decide)
     (by decide) rfl rfl,
   C6_id_scan.2.2.2.2.1 "230".data 0 ['3', '0'] (by decide) (by decide)
     (by decide) rfl,
   C6_id_scan.2.2.2.2.2 "21[1]".data 0 ['1'] '[' "1]".data (by decide)
     (by decide) (by decide) rfl rfl⟩

/-! ### Claim C7: default namespace omission -/

/-- Counterexample to C7 as stated: the frame `5` has no `/` at position 1,
yet its decode (a synthesized error packet) has no `nsp` field at all
rather than `nsp = "/"`. -/
theorem C7_counterexample :
    charAt "5".data 1 = none ∧
    (Decoder._decodePacket "5".data).nsp = none ∧
    (none : Option (List Char)) ≠ some "/".data := by
  refine ⟨rfl, rfl, by decide⟩

/-- C7 (amended): encoding a packet with `nsp = "/"` produces the same
frame as encoding it with no namespace at all (no namespace segment is
written); decoding a frame whose character at position 1 is not `/` yields
either a packet with `nsp = "/"` or a synthesized error packet (which
carries no namespace). -/
theorem C7_default_namespace :
    (∀ p : Packet, p.nsp = some "/".data →
      Encoder._encodePacket p = Encoder._encodePacket { p with nsp := none }) ∧
    (∀ s, (∀ c, charAt s 1 = some c → c ≠ '/') →
      (Decoder._decodePacket s).nsp = some "/".data ∨
      ∃ m, Decoder._decodePacket s = buildError m) := by
  constructor
  · intro p hp
    simp [Encoder._encodePacket, hp]
  · intro s hs
    rcases hts : Decoder.typeStage s with _ | tv
    · exact Or.inr ⟨"unknown packet type NaN".data,
        by simp [Decoder._decodePacket, hts]⟩
    · rcases hty : types[tv]? with _ | name
      · exact Or.inr ⟨"unknown packet type ".data ++ natToChars tv,
          by simp [Decoder._decodePacket, hts, hty]⟩
      · have htv : tv ≤ 4 := types_get_le hty
        have hns : Decoder.nsStage s = ("/".data, 0) :=
          Decoder.nsStage_noslash s hs
        rcases payloadStage_cases s tv (Decoder.nsStage s).1
            (Decoder.idStage s (Decoder.nsStage s).2).1
            (Decoder.idStage s (Decoder.nsStage s).2).2 with
          hcase | ⟨dataOpt, hcase⟩
        · exact Or.inr ⟨"invalid payload".data,
            by rw [Decoder.decodePacket_stages s tv hts htv, hcase]⟩
        · refine Or.inl ?_
          rw [Decoder.decodePacket_stages s tv hts htv, hcase, hns]

/-- Witness for C7 on a packet with the default namespace and on the frame
`2`. -/
theorem C7_default_namespace_witness :
    Encoder._encodePacket { type := 2, nsp := some "/".data } =
      Encoder._encodePacket { type := 2, nsp := none } ∧
    ((Decoder._decodePacket "2".data).nsp = some "/".data ∨
      ∃ m, Decoder._decodePacket "2".data = buildError m) := by
  constructor
  · exact C7_default_namespace.1 { type := 2, nsp := some "/".data } rfl
  · exact C7_default_namespace.2 "2".data (by
      intro c hc
      rw [show charAt "2".data 1 = none from rfl] at hc
      exact Option.noConfusion hc)

/-! ### Claim C8: id zero is preserved -/

/-- C8: a packet with `id = 0` (default namespace, no data) encodes with
the digit `0` in the id position, and decoding that frame yields
`id = some 0` — while an otherwise identical packet with no id at all
round-trips to a packet with no id. -/
theorem C8_id_zero (p : Packet) (ht : p.type ≤ 4) (hn : p.nsp = none)
    (hd : p.data = none) (hid : p.id = some 0) :
    Encoder._encodePacket p = [Nat.digitChar p.type, '0'] ∧
    (Decoder._decodePacket (Encoder._encodePacket p)).id =
      some (JsNumber.nat 0) ∧
    (∀ q : Packet, q.type = p.type → q.nsp = none → q.data = none →
      q.id = none →
      (Decoder._decodePacket (Encoder._encodePacket q)).id = none) := by
  have henc : Encoder._encodePacket p = [Nat.digitChar p.type, '0'] := by
    rw [encodePacket_shape p (by omega) (Or.inl hd), hn, hid, hd]
    rfl
  refine ⟨henc, ?_, ?_⟩
  · rw [henc]
    have hcore := C1_core p.type ht none (some ['0']) none
      (fun m hm => Option.noConfusion hm)
      (by
        intro ds hds
        rw [Option.some.injEq] at hds
        subst hds
        exact ⟨by decide, by decide⟩)
      (fun v hv => Option.noConfusion hv)
    rw [show ([Nat.digitChar p.type, '0'] : List Char) =
      Nat.digitChar p.type ::
        ((none : Option (List Char)).elim [] (fun m => m ++ [',']) ++
          (some ['0'] : Option (List Char)).elim [] (fun ds => ds) ++
          (none : Option Json).elim [] jsonToChars) from rfl, hcore]
    rfl
  · intro q hqt hqn hqd hqi
    have henc2 : Encoder._encodePacket q = [Nat.digitChar q.type] := by
      rw [encodePacket_shape q (by omega) (Or.inl hqd), hqn, hqi, hqd]
      rfl
    rw [henc2]
    have hcore := C1_core q.type (by omega) none none none
      (fun m hm => Option.noConfusion hm)
      (fun ds hds => Option.noConfusion hds)
      (fun v hv => Option.noConfusion hv)
    rw [show ([Nat.digitChar q.type] : List Char) =
      Nat.digitChar q.type ::
        ((none : Option (List Char)).elim [] (fun m => m ++ [',']) ++
          (none : Option (List Char)).elim [] (fun ds => ds) ++
          (none : Option Json).elim [] jsonToChars) from rfl, hcore]
    rfl

/-- Witness for C8 at the `ACK` packet with id 0 against the same packet
with no id. -/
theorem C8_id_zero_witness :
    Encoder._encodePacket { type := 3, id := some 0 } = ['3', '0'] ∧
    (Decoder._decodePacket (Encoder._encodePacket
      { type := 3, id := some 0 })).id = some (JsNumber.nat 0) ∧
    (Decoder._decodePacket (Encoder._encodePacket { type := 3 })).id =
      none := by
  have h := C8_id_zero { type := 3, id := some 0 } (by decide) rfl rfl rfl
  exact ⟨h.1, h.2.1, h.2.2 { type := 3 } rfl rfl rfl rfl⟩


end Sio
